import Mathlib

/-!
# Verification of the advanced lane-line detection pipeline

A shallow embedding, over the rationals, of the per-frame lane-detection
pipeline of `advanced_lane_lines.py`: thresholding, sliding-window and
prior-guided lane-pixel search, quadratic least-squares fitting, the
curvature / lateral-offset computation, and the frame-to-frame tracker
orchestration.  Images are lists of rows of natural numbers; real-valued
quantities are rationals (the idealisation of the floating-point source);
numpy calls that can raise are embedded as `Except` values.
-/

/-! ## Fits and evaluation -/

/-- A degree-2 fit `x = a*y^2 + b*y + c`, the triple returned by
`np.polyfit(..., deg = 2)` (coefficients highest degree first). -/
def evalFit (f : ℚ × ℚ × ℚ) (y : ℚ) : ℚ :=
  f.1 * y ^ 2 + f.2.1 * y + f.2.2

/-- Pixel-to-meter scale in x: `xm_per_pix = 3.7/700` in the source. -/
def xmPerPix : ℚ := 37 / 7000

/-- Pixel-to-meter scale in y: `ym_per_pix = 30/720` in the source. -/
def ymPerPix : ℚ := 30 / 720

/-! ## Rounding (Python `round(_, 2)`, banker's rounding) -/

/-- Round-half-to-even on the rationals, the idealisation of Python's
`round` builtin on exact values. -/
def roundHalfEven (q : ℚ) : ℤ :=
  let f : ℤ := ⌊q⌋
  let r : ℚ := q - f
  if r < 1/2 then f
  else if 1/2 < r then f + 1
  else if f % 2 = 0 then f else f + 1

/-- Python `round(q, 2)`: round to two decimal places, ties to even. -/
def round2 (q : ℚ) : ℚ := (roundHalfEven (q * 100) : ℚ) / 100

/-! ## ThresholdEngine: per-pixel masks (`abs_sobel_thresh`, `mag_thresh`,
`dir_thresh`, `hue_thresh`, `saturation_thresh`, `combined_thresh`)

The Sobel convolution, grayscale and HLS conversions are opaque per-pixel
channel values here; the thresholding and combination logic is embedded
exactly.  A gradient mask compares the rescaled (0-255) channel value with
an inclusive range (`>= lo` and `<= hi` in the source); the hue and
saturation masks use a strict lower bound (`> lo` and `<= hi`). -/

/-- Line 53 / 78: gradient-style inclusive threshold mask on a rescaled
8-bit channel value. -/
def gradMask (v : ℕ) (lo hi : ℕ) : ℕ :=
  if lo ≤ v ∧ v ≤ hi then 1 else 0

/-- Line 103: inclusive threshold mask on the gradient-direction value
(radians). -/
def dirMask (v : ℚ) (lo hi : ℚ) : ℕ :=
  if lo ≤ v ∧ v ≤ hi then 1 else 0

/-- Lines 117 / 131: hue/saturation mask, strict lower bound and inclusive
upper bound (`(H > lo) & (H <= hi)`). -/
def colorMask (v : ℕ) (lo hi : ℕ) : ℕ :=
  if lo < v ∧ v ≤ hi then 1 else 0

/-- Line 146 of `combined_thresh`: the combined binary output pixel, given
the six per-pixel channel values (scaled |sobel x|, scaled |sobel y|,
scaled gradient magnitude, gradient direction, hue, saturation) and the six
threshold pairs.  Numpy operator precedence makes the mask expression
`(gradx & grady & mag & dir) | (h & s)`. -/
def combinedThreshPixel (absT : ℕ × ℕ) (magT : ℕ × ℕ) (angT : ℚ × ℚ)
    (hT : ℕ × ℕ) (sT : ℕ × ℕ)
    (gx gy mg : ℕ) (dv : ℚ) (hv sv : ℕ) : ℕ :=
  if (gradMask gx absT.1 absT.2 = 1 ∧ gradMask gy absT.1 absT.2 = 1 ∧
      gradMask mg magT.1 magT.2 = 1 ∧ dirMask dv angT.1 angT.2 = 1) ∨
     (colorMask hv hT.1 hT.2 = 1 ∧ colorMask sv sT.1 sT.2 = 1)
  then 1 else 0

/-! ## Rescaling (lines 49 and 73-74)

`scaled_sobel = np.uint8(255*abs_sobel/np.max(abs_sobel))` and
`magnitude/(np.max(magnitude)/255)`.  When the frame-wide maximum is `0`
the division is `0/0`, which numpy evaluates to NaN (with a runtime
warning, not an exception); `none` stands for that NaN. -/

/-- Line 49: per-pixel rescale of `abs_sobel_thresh`, given the pixel's
absolute Sobel value and the frame-wide maximum. -/
def rescaleSobel (absval maxval : ℚ) : Option ℚ :=
  if maxval = 0 then none else some (255 * absval / maxval)

/-- Lines 73-74: per-pixel rescale of `mag_thresh`:
`scale_factor = np.max(magnitude)/255; magnitude/scale_factor`. -/
def rescaleMag (magval maxval : ℚ) : Option ℚ :=
  if maxval / 255 = 0 then none else some (magval / (maxval / 255))

/-! ## GeometryAnalyzer: curvature radius and lateral offset
(`curvature_in_meters`, lines 441-468) -/

/-- Classification of the numpy float produced by the radius formula
`(1 + (2*a*y_eval*ym + b)**2)**1.5 / np.absolute(2*a)` (lines 459-460).
`finite numBase den` records the base raised to the power 1.5 together
with the (nonzero) denominator; numpy turns a positive numerator over a
zero denominator into `+inf` and `0/0` into NaN, raising no exception. -/
inductive CurvRes where
  | finite (numBase den : ℚ)
  | posInf
  | nan
  deriving DecidableEq, Repr

/-- Lines 459-460: curvature radius at the bottom of the frame from a
metric-space fit `(aCr, bCr)` and the pixel-space evaluation row
`y_eval` (the numerator base `1 + (2*aCr*y_eval*ym + bCr)^2` is what the
source raises to the power `1.5`; the power of a positive rational is
positive and finite, so the numpy classification of the quotient depends
only on the base and the denominator `|2*aCr|`). -/
def radiusInMeters (aCr bCr yEvalPx : ℚ) : CurvRes :=
  if |2 * aCr| = 0 then
    (if 1 + (2 * aCr * yEvalPx * ymPerPix + bCr) ^ 2 = 0 then .nan else .posInf)
  else .finite (1 + (2 * aCr * yEvalPx * ymPerPix + bCr) ^ 2) |2 * aCr|

/-- Lines 462-466 of `curvature_in_meters`: the signed distance from the
lane center.  `position = width//2`; the two intercepts are the fits
evaluated at `y = height` (the full height, not the bottom row index
`height - 1`); the result is `round((position - center)*xm_per_pix, 2)`. -/
def distFromCenter (height width : ℕ) (lf rf : ℚ × ℚ × ℚ) : ℚ :=
  let position : ℚ := (width / 2 : ℕ)
  let leftIntercept := evalFit lf (height : ℚ)
  let rightIntercept := evalFit rf (height : ℚ)
  let center := (leftIntercept + rightIntercept) / 2
  round2 ((position - center) * xmPerPix)

/-- The lateral-offset formula as the specification words it: both
intercepts evaluated at the frame's bottom pixel row `height - 1`,
otherwise identical to `distFromCenter`.  (Comparison definition for the
refinement claim; the source uses `height`.) -/
def specDistFromCenter (height width : ℕ) (lf rf : ℚ × ℚ × ℚ) : ℚ :=
  let position : ℚ := (width / 2 : ℕ)
  let leftIntercept := evalFit lf ((height : ℚ) - 1)
  let rightIntercept := evalFit rf ((height : ℚ) - 1)
  let center := (leftIntercept + rightIntercept) / 2
  round2 ((position - center) * xmPerPix)

/-! ## PolynomialFitter: `np.polyfit(x = ys, y = xs, deg = 2)`

Ordinary least squares of `x` as a quadratic in `y`.  The normal
equations are `S β = T` with `S` the 3×3 Gram matrix of the moment sums
`Σ y^k` (k = 0..4) and `T` the mixed sums `Σ x*y^k` (k = 0..2); when the
Gram determinant is nonzero the unique solution is given by Cramer's
rule.  `np.polyfit` raises `TypeError` on an empty input vector; on a
nonempty rank-deficient input (fewer than 3 distinct `y` values) it
returns a rank-deficient least-squares fit with only a `RankWarning` —
its coefficients come from an SVD and are floating-point specific, so
they are abstracted as `FitOutcome.degenerate`. -/

/-- `Σ y^k` over a list of sample coordinates. -/
def powSum (ys : List ℚ) (k : ℕ) : ℚ := (ys.map (fun y => y ^ k)).sum

/-- `Σ y^k * x` over paired sample coordinates. -/
def mixSum (ys xs : List ℚ) (k : ℕ) : ℚ :=
  ((ys.zip xs).map (fun p => p.1 ^ k * p.2)).sum

/-- Determinant of a 3×3 matrix given row by row. -/
def det3 (a11 a12 a13 a21 a22 a23 a31 a32 a33 : ℚ) : ℚ :=
  a11 * (a22 * a33 - a23 * a32) - a12 * (a21 * a33 - a23 * a31) +
    a13 * (a21 * a32 - a22 * a31)

/-- Determinant of the normal-equations Gram matrix of the quadratic
least-squares problem on the sample rows `ys` (depends on `ys` only). -/
def gramDet (ys : List ℚ) : ℚ :=
  det3 (powSum ys 4) (powSum ys 3) (powSum ys 2)
       (powSum ys 3) (powSum ys 2) (powSum ys 1)
       (powSum ys 2) (powSum ys 1) (powSum ys 0)

/-- Result of a nonempty `np.polyfit` call: either the unique
least-squares quadratic, or the rank-deficient case (numpy still returns
coefficients there, produced by a floating-point SVD; no error). -/
inductive FitOutcome where
  | fit (a b c : ℚ)
  | degenerate
  deriving DecidableEq, Repr

/-- Least-squares quadratic fit of `xs` against `ys` by the normal
equations and Cramer's rule; `degenerate` when the Gram matrix is
singular. -/
def polyfitCore (ys xs : List ℚ) : FitOutcome :=
  let d := gramDet ys
  if d = 0 then .degenerate
  else
    let t2 := mixSum ys xs 2
    let t1 := mixSum ys xs 1
    let t0 := mixSum ys xs 0
    let s4 := powSum ys 4
    let s3 := powSum ys 3
    let s2 := powSum ys 2
    let s1 := powSum ys 1
    let s0 := powSum ys 0
    .fit (det3 t2 s3 s2 t1 s2 s1 t0 s1 s0 / d)
         (det3 s4 t2 s2 s3 t1 s1 s2 t0 s0 / d)
         (det3 s4 s3 t2 s3 s2 t1 s2 s1 t0 / d)

/-- The errors numpy fit calls can raise inside the pipeline:
`emptyVector` is the `TypeError` from `np.polyfit` on an empty input;
`priorUnavailable` is the `TypeError` from indexing a `None`
`previous_fit` in `search_around_poly`. -/
inductive FitErr where
  | emptyVector
  | priorUnavailable
  deriving DecidableEq, Repr

/-- `np.polyfit(x = ys, y = xs, deg = 2)`: raises (returns an error) only
when the input vector is empty; any nonempty input yields coefficients. -/
def npPolyfit2 (ys xs : List ℚ) : Except FitErr FitOutcome :=
  if ys = [] then .error .emptyVector else .ok (polyfitCore ys xs)

/-! ## Metric-space refit (`curvature_in_meters`, lines 447-452)

`ys = np.linspace(0, height-1, height)`, `left_x` the pixel fit evaluated
on `ys`, then `np.polyfit(ys*ym_per_pix, left_x*xm_per_pix, 2)`. -/

/-- `np.linspace(0, h-1, h)`: the sample rows `0, 1, ..., h-1`. -/
def linspaceVals (h : ℕ) : List ℚ := (List.range h).map (fun i => (i : ℚ))

/-- Lines 447-452: the metric-space fit the code computes for one lane,
given the frame height and the lane's pixel-space fit: refit on the
`h` samples of the pixel-fit curve, with both coordinates converted to
meters. -/
def curvatureMetricFit (h : ℕ) (f : ℚ × ℚ × ℚ) : FitOutcome :=
  let ys := linspaceVals h
  let xsv := ys.map (fun y => evalFit f y)
  polyfitCore (ys.map (fun y => ymPerPix * y)) (xsv.map (fun x => xmPerPix * x))

/-- Modelled from the spec: the metric-space fit §3 and §4.4 describe —
the least-squares quadratic refit on the detected lane-pixel point set
itself, converted to meters (the detected rows `ysP` and columns `xsP`
scaled by `ym_per_pix` and `xm_per_pix`).  Comparison definition for the
refinement claim about `curvature_in_meters`. -/
def specMetricFitOnDetected (ysP xsP : List ℚ) : FitOutcome :=
  polyfitCore (ysP.map (fun y => ymPerPix * y)) (xsP.map (fun x => xmPerPix * x))

/-! ## Binary warped images and `find_lane_pixels` (lines 173-258)

A binary warped frame is a list of rows (top row first, as in the numpy
array), each row a list of pixel values. -/

/-- A single-channel image: rows of pixel values, row `0` at the top. -/
abbrev Img := List (List ℕ)

/-- Number of rows of the image (`binary_warped.shape[0]`). -/
def imgHeight (img : Img) : ℕ := img.length

/-- Number of columns of the image (`binary_warped.shape[1]`). -/
def imgWidth (img : Img) : ℕ := (img.headD []).length

/-- Column sum of a list of rows at column `c`. -/
def colSum (rows : List (List ℕ)) (c : ℕ) : ℕ :=
  (rows.map (fun r => r.getD c 0)).sum

/-- Line 175: `histogram = np.sum(binary_warped[h//2:, :], axis=0)` —
the column-wise sums of the bottom half of the frame. -/
def histogram (img : Img) : List ℕ :=
  (List.range (imgWidth img)).map (fun c => colSum (img.drop (imgHeight img / 2)) c)

/-- `np.argmax`: index of the first (lowest-index) maximum of a vector;
`0` on the empty vector. -/
def argmaxFirst (l : List ℕ) : ℕ := l.indexOf (l.foldr max 0)

/-- The nonzero pixels of one row, as `(y, x)` pairs, `x` ascending
starting from column `x0`. -/
def rowNonzeros (y : ℕ) : ℕ → List ℕ → List (ℕ × ℕ)
  | _, [] => []
  | x0, v :: vs =>
      (if v ≠ 0 then [(y, x0)] else []) ++ rowNonzeros y (x0 + 1) vs

/-- Rows from `y0` downward turned into nonzero-pixel lists. -/
def nonzeroFrom : ℕ → List (List ℕ) → List (ℕ × ℕ)
  | _, [] => []
  | y0, r :: rs => rowNonzeros y0 0 r ++ nonzeroFrom (y0 + 1) rs

/-- Line 198: `binary_warped.nonzero()` — the `(y, x)` coordinates of all
nonzero pixels, in row-major order. -/
def nonzeroPixels (img : Img) : List (ℕ × ℕ) := nonzeroFrom 0 img

/-- Lines 213-231: the nonzero pixels falling inside sliding window
number `w` (counted from the bottom) around center column `c`: rows in
`[h - (w+1)*wh, h - w*wh)` and columns in `[c - margin, c + margin)`
(the source tests `>=` on the low bounds and `<` on the high bounds). -/
def windowPixels (h wh margin : ℕ) (nz : List (ℕ × ℕ)) (w c : ℕ) :
    List (ℕ × ℕ) :=
  nz.filter (fun p =>
    decide ((h : ℤ) - (w + 1) * wh ≤ (p.1 : ℤ)) &&
    decide ((p.1 : ℤ) < (h : ℤ) - w * wh) &&
    decide ((c : ℤ) - margin ≤ (p.2 : ℤ)) &&
    decide ((p.2 : ℤ) < (c : ℤ) + margin))

/-- Lines 239-242: the window center for the next window — recentered at
`np.int(np.mean(x-values))` (truncation of the mean, i.e. natural-number
division of the sum by the count) exactly when the window collected
strictly more than `minpix` pixels, else unchanged. -/
def nextCenter (h wh margin minpix : ℕ) (nz : List (ℕ × ℕ)) (w c : ℕ) : ℕ :=
  let good := windowPixels h wh margin nz w c
  if minpix < good.length then (good.map Prod.snd).sum / good.length else c

/-- The center of window `k` for one lane, starting from the histogram
base: `centerSeq ... 0 = base` and each next center follows the
recentering rule. -/
def centerSeq (h wh margin minpix : ℕ) (nz : List (ℕ × ℕ)) (base : ℕ) :
    ℕ → ℕ
  | 0 => base
  | k + 1 => nextCenter h wh margin minpix nz k
      (centerSeq h wh margin minpix nz base k)

/-- Lines 211-242, the window loop for one lane (the left and right lanes
run the same loop independently): `fuel` windows remain, the current
window is number `w` with center `c`; each window contributes its pixels
and updates the center. -/
def laneLoop (h wh margin minpix : ℕ) (nz : List (ℕ × ℕ)) :
    ℕ → ℕ → ℕ → List (ℕ × ℕ)
  | 0, _, _ => []
  | fuel + 1, w, c =>
      let good := windowPixels h wh margin nz w c
      let c2 := if minpix < good.length
                then (good.map Prod.snd).sum / good.length else c
      good ++ laneLoop h wh margin minpix nz fuel (w + 1) c2

/-- `find_lane_pixels` (lines 173-258): histogram of the bottom half,
first-maximum bases on the two halves (the right base offset by the
midpoint), then 9 sliding windows of half-width 100 with recentering
threshold 50 for each lane.  Returns the two collected `(y, x)` pixel
lists. -/
def findLanePixels (img : Img) : List (ℕ × ℕ) × List (ℕ × ℕ) :=
  let h := imgHeight img
  let hist := histogram img
  let midpoint := hist.length / 2
  let leftxBase := argmaxFirst (hist.take midpoint)
  let rightxBase := argmaxFirst (hist.drop midpoint) + midpoint
  let windowHeight := h / 9
  let nz := nonzeroPixels img
  (laneLoop h windowHeight 100 50 nz 9 0 leftxBase,
   laneLoop h windowHeight 100 50 nz 9 0 rightxBase)

/-! ## `fit_polynomial` and `search_around_poly` fit stages -/

/-- The `y` coordinates of a pixel list, as rationals. -/
def pixYs (pts : List (ℕ × ℕ)) : List ℚ := pts.map (fun p => (p.1 : ℚ))

/-- The `x` coordinates of a pixel list, as rationals. -/
def pixXs (pts : List (ℕ × ℕ)) : List ℚ := pts.map (fun p => (p.2 : ℚ))

/-- Lines 260-285, the fitting stage of `fit_polynomial`: find the lane
pixels with the sliding-window search, then `np.polyfit` each lane (left
first — its exception propagates first).  The `try/except TypeError`
around the later curve evaluation cannot intercept these calls, and the
placeholder curve only affects plotting values, never the returned
fits. -/
def fitPolynomialFits (img : Img) : Except FitErr (FitOutcome × FitOutcome) := do
  let pts := findLanePixels img
  let lf ← npPolyfit2 (pixYs pts.1) (pixXs pts.1)
  let rf ← npPolyfit2 (pixYs pts.2) (pixXs pts.2)
  return (lf, rf)

/-- Lines 317-322: the nonzero pixels whose column lies strictly within
`±margin` of the previous fit evaluated at their row
(`nonzerox > fit(y) - margin` and `nonzerox < fit(y) + margin`). -/
def priorSelect (margin : ℚ) (nz : List (ℕ × ℕ)) (f : ℚ × ℚ × ℚ) :
    List (ℕ × ℕ) :=
  nz.filter (fun p =>
    decide (evalFit f (p.1 : ℚ) - margin < (p.2 : ℚ)) &&
    decide ((p.2 : ℚ) < evalFit f (p.1 : ℚ) + margin))

/-- Lines 302-332, the fitting stage of `search_around_poly`: select the
nonzero pixels within ±100 of each previous fit, then `np.polyfit` each
lane (left first). -/
def searchAroundPolyFits (img : Img) (lf rf : ℚ × ℚ × ℚ) :
    Except FitErr (FitOutcome × FitOutcome) := do
  let nz := nonzeroPixels img
  let lp := priorSelect 100 nz lf
  let rp := priorSelect 100 nz rf
  let lfit ← npPolyfit2 (pixYs lp) (pixXs lp)
  let rfit ← npPolyfit2 (pixYs rp) (pixXs rp)
  return (lfit, rfit)

/-! ## LaneTracker and the pipeline (class `Line`, lines 11-18, and
`pipeline`, lines 486-516) -/

/-- The per-lane tracker state of class `Line`: the `found` flag and the
stored `previous_fit` (`none` is Python's initial `None`). -/
structure LineState where
  found : Bool
  previous_fit : Option FitOutcome
  deriving DecidableEq, Repr

/-- The two module-level `Line` instances. -/
structure Tracker where
  left : LineState
  right : LineState
  deriving DecidableEq, Repr

/-- Lines 496-502 of `pipeline`: which search runs and what it returns.
Sliding-window when either lane is not found; otherwise prior-guided
search around the stored fits.  A stored `None` fit would make
`search_around_poly` raise a `TypeError` when indexed; a stored
rank-deficient fit has floating-point-specific coefficients, so the
prior search after one is outside the modelled fragment and mapped to
the same error (no verified statement depends on that branch). -/
def pipelineFitStage (st : Tracker) (img : Img) :
    Except FitErr (FitOutcome × FitOutcome) :=
  if st.left.found = false ∨ st.right.found = false then
    fitPolynomialFits img
  else
    match st.left.previous_fit, st.right.previous_fit with
    | some (.fit a b c), some (.fit a2 b2 c2) =>
        searchAroundPolyFits img (a, b, c) (a2, b2, c2)
    | _, _ => .error .priorUnavailable

/-- `pipeline` (lines 486-516) as a state transition: on success the
frame unconditionally stores the two fresh fits and sets both `found`
flags (lines 512-513); on a fit error the exception propagates and the
module-level state is not touched. -/
def pipelineStep (st : Tracker) (img : Img) : Except FitErr Tracker :=
  match pipelineFitStage st img with
  | .error e => .error e
  | .ok (lf, rf) => .ok ⟨⟨true, some lf⟩, ⟨true, some rf⟩⟩

/-- The tracker state after a frame: updated on success, unchanged when
the frame raised. -/
def stepState (st : Tracker) (img : Img) : Tracker :=
  match pipelineStep st img with
  | .ok t => t
  | .error _ => st

/-- Line 498: the condition under which the frame uses sliding-window
search. -/
def usesSliding (st : Tracker) : Prop :=
  st.left.found = false ∨ st.right.found = false

instance (st : Tracker) : Decidable (usesSliding st) := by
  unfold usesSliding; infer_instance

/-! ## PerspectiveMapper (`perspective_transform`, lines 151-170)

`cv2.getPerspectiveTransform(P, Q)` returns the 3×3 homography taking the
four points of `P` to the four points of `Q` (projectively).  It is
embedded by the classical construction: a matrix with columns
`c_i * hom(P_i)` maps the projective basis to the quad (the `c_i` solve a
3×3 system by Cramer's rule, fixing the scale so the fourth basis point
`(1,1,1)` lands on `P_4`); the transform between two quads composes one
such matrix with the adjugate (projective inverse) of the other. -/

/-- A homogeneous 3-vector of rationals. -/
abbrev V3 := ℚ × ℚ × ℚ

/-- A 3×3 rational matrix, given by rows. -/
structure M3 where
  r1 : V3
  r2 : V3
  r3 : V3
  deriving DecidableEq, Repr

/-- Dot product of 3-vectors. -/
def dot3 (u v : V3) : ℚ := u.1 * v.1 + u.2.1 * v.2.1 + u.2.2 * v.2.2

/-- Matrix-vector product. -/
def mulVec3 (M : M3) (v : V3) : V3 := (dot3 M.r1 v, dot3 M.r2 v, dot3 M.r3 v)

/-- Scalar multiple of a 3-vector. -/
def smul3 (a : ℚ) (v : V3) : V3 := (a * v.1, a * v.2.1, a * v.2.2)

/-- Componentwise sum of 3-vectors. -/
def add3 (u v : V3) : V3 := (u.1 + v.1, u.2.1 + v.2.1, u.2.2 + v.2.2)

/-- The matrix with the given columns. -/
def colMat (c1 c2 c3 : V3) : M3 :=
  ⟨(c1.1, c2.1, c3.1), (c1.2.1, c2.2.1, c3.2.1), (c1.2.2, c2.2.2, c3.2.2)⟩

/-- Determinant of a 3×3 matrix. -/
def det3M (M : M3) : ℚ :=
  det3 M.r1.1 M.r1.2.1 M.r1.2.2 M.r2.1 M.r2.2.1 M.r2.2.2
       M.r3.1 M.r3.2.1 M.r3.2.2

/-- Adjugate (transposed cofactor matrix), satisfying
`adj3 M * M = det3M M * I`. -/
def adj3 (M : M3) : M3 :=
  let a := M.r1.1; let b := M.r1.2.1; let c := M.r1.2.2
  let d := M.r2.1; let e := M.r2.2.1; let f := M.r2.2.2
  let g := M.r3.1; let h := M.r3.2.1; let i := M.r3.2.2
  ⟨(e * i - f * h, c * h - b * i, b * f - c * e),
   (f * g - d * i, a * i - c * g, c * d - a * f),
   (d * h - e * g, b * g - a * h, a * e - b * d)⟩

/-- Matrix product. -/
def mulMat3 (M N : M3) : M3 :=
  colMat (mulVec3 M ⟨N.r1.1, N.r2.1, N.r3.1⟩)
         (mulVec3 M ⟨N.r1.2.1, N.r2.2.1, N.r3.2.1⟩)
         (mulVec3 M ⟨N.r1.2.2, N.r2.2.2, N.r3.2.2⟩)

/-- A 2-D point lifted to homogeneous coordinates. -/
def homogP (p : ℚ × ℚ) : V3 := (p.1, p.2, 1)

/-- The Cramer coefficients `c` with
`c_1 * hom(p1) + c_2 * hom(p2) + c_3 * hom(p3) = hom(p4)`. -/
def quadCoeffs (p1 p2 p3 p4 : ℚ × ℚ) : V3 :=
  let d := det3M (colMat (homogP p1) (homogP p2) (homogP p3))
  (det3M (colMat (homogP p4) (homogP p2) (homogP p3)) / d,
   det3M (colMat (homogP p1) (homogP p4) (homogP p3)) / d,
   det3M (colMat (homogP p1) (homogP p2) (homogP p4)) / d)

/-- The canonical matrix taking the projective basis to the quad
`p1 p2 p3 p4` (columns `c_i * hom(p_i)`). -/
def quadMat (p1 p2 p3 p4 : ℚ × ℚ) : M3 :=
  let c := quadCoeffs p1 p2 p3 p4
  colMat (smul3 c.1 (homogP p1)) (smul3 c.2.1 (homogP p2))
         (smul3 c.2.2 (homogP p3))

/-- `cv2.getPerspectiveTransform(src, dst)`: the homography taking the
source quad to the destination quad (up to the projective scale, which
the adjugate leaves free). -/
def getPerspectiveTransform (s1 s2 s3 s4 d1 d2 d3 d4 : ℚ × ℚ) : M3 :=
  mulMat3 (quadMat d1 d2 d3 d4) (adj3 (quadMat s1 s2 s3 s4))

/-- Apply a homography to a 2-D point: multiply the homogeneous lift and
dehomogenise; `none` when the image lies on the line at infinity. -/
def applyHomography (M : M3) (p : ℚ × ℚ) : Option (ℚ × ℚ) :=
  let v := mulVec3 M (homogP p)
  if v.2.2 = 0 then none else some (v.1 / v.2.2, v.2.1 / v.2.2)

/-- Lines 154-158: the source quadrilateral of `perspective_transform`
for frame width `W` and height `H`. -/
def srcQuad (W H : ℚ) : Fin 4 → ℚ × ℚ
  | 0 => (W / 2 - 55, H / 2 + 100)
  | 1 => (W / 6 - 10, H)
  | 2 => (W * 5 / 6 + 60, H)
  | 3 => (W / 2 + 55, H / 2 + 100)

/-- Lines 160-164: the destination quadrilateral of
`perspective_transform`. -/
def dstQuad (W H : ℚ) : Fin 4 → ℚ × ℚ
  | 0 => (W / 4, 0)
  | 1 => (W / 4, H)
  | 2 => (W * 3 / 4, H)
  | 3 => (W * 3 / 4, 0)

/-- Line 166: the forward transform `M` of `perspective_transform`. -/
def forwardM (W H : ℚ) : M3 :=
  getPerspectiveTransform (srcQuad W H 0) (srcQuad W H 1) (srcQuad W H 2)
    (srcQuad W H 3) (dstQuad W H 0) (dstQuad W H 1) (dstQuad W H 2)
    (dstQuad W H 3)

/-- Line 167: the inverse transform `Minv` of `perspective_transform`. -/
def inverseM (W H : ℚ) : M3 :=
  getPerspectiveTransform (dstQuad W H 0) (dstQuad W H 1) (dstQuad W H 2)
    (dstQuad W H 3) (srcQuad W H 0) (srcQuad W H 1) (srcQuad W H 2)
    (srcQuad W H 3)

/-- The nondegeneracy a quad needs for the homography construction: no
three of its corners collinear, expressed through the quantities the
construction divides by or cancels. -/
def quadRegular (p1 p2 p3 p4 : ℚ × ℚ) : Prop :=
  det3M (colMat (homogP p1) (homogP p2) (homogP p3)) ≠ 0 ∧
  (quadCoeffs p1 p2 p3 p4).1 ≠ 0 ∧ (quadCoeffs p1 p2 p3 p4).2.1 ≠ 0 ∧
  (quadCoeffs p1 p2 p3 p4).2.2 ≠ 0

instance (p1 p2 p3 p4 : ℚ × ℚ) : Decidable (quadRegular p1 p2 p3 p4) := by
  unfold quadRegular; infer_instance

/-! ## Concrete inputs used by counterexamples and witnesses -/

/-- An all-zero 12-column row. -/
def zeroRow12 : List ℕ := List.replicate 12 0

/-- A 9×12 binary warped frame with exactly two nonzero pixels, at
`(y, x) = (4, 2)` and `(4, 9)`. -/
def img9 : Img :=
  [zeroRow12, zeroRow12, zeroRow12, zeroRow12,
   [0, 0, 1, 0, 0, 0, 0, 0, 0, 1, 0, 0],
   zeroRow12, zeroRow12, zeroRow12, zeroRow12]

/-- A 2×2 all-zero frame. -/
def imgZero : Img := [[0, 0], [0, 0]]

/-- A tracker state in which both lanes are `Found` with stored fits
`x = 1000` (constant). -/
def stFound : Tracker :=
  ⟨⟨true, some (.fit 0 0 1000)⟩, ⟨true, some (.fit 0 0 1000)⟩⟩

/-- The initial tracker state of a session (`Line.__init__`). -/
def stInit : Tracker := ⟨⟨false, none⟩, ⟨false, none⟩⟩

/-! # Theorems -/

/-! ## Threshold masks (C3) -/

theorem gradMask_eq_one (v lo hi : ℕ) :
    gradMask v lo hi = 1 ↔ lo ≤ v ∧ v ≤ hi := by
  unfold gradMask; split <;> simp_all

theorem dirMask_eq_one (v lo hi : ℚ) :
    dirMask v lo hi = 1 ↔ lo ≤ v ∧ v ≤ hi := by
  unfold dirMask; split <;> simp_all

theorem colorMask_eq_one (v lo hi : ℕ) :
    colorMask v lo hi = 1 ↔ lo < v ∧ v ≤ hi := by
  unfold colorMask; split <;> simp_all

/-- C3: with the default thresholds of `combined_thresh`, the combined
output pixel is `1` exactly when (gradX AND gradY AND gradMag AND
gradDir) OR (hue AND sat) holds, with gradient masks on the inclusive
ranges `[20,100]`, `[30,100]`, `[0.7,1.4]` and hue/saturation masks on
the exclusive-lower/inclusive-upper ranges `(10,35]` and `(120,255]`;
otherwise the pixel is `0`. -/
theorem c3_combined_thresh_formula (gx gy mg : ℕ) (dv : ℚ) (hv sv : ℕ) :
    (combinedThreshPixel (20, 100) (30, 100) (7/10, 14/10) (10, 35)
        (120, 255) gx gy mg dv hv sv = 1 ↔
      (((20 ≤ gx ∧ gx ≤ 100) ∧ (20 ≤ gy ∧ gy ≤ 100) ∧
        (30 ≤ mg ∧ mg ≤ 100) ∧ (7/10 ≤ dv ∧ dv ≤ 14/10)) ∨
       ((10 < hv ∧ hv ≤ 35) ∧ (120 < sv ∧ sv ≤ 255)))) ∧
    (combinedThreshPixel (20, 100) (30, 100) (7/10, 14/10) (10, 35)
        (120, 255) gx gy mg dv hv sv = 1 ∨
     combinedThreshPixel (20, 100) (30, 100) (7/10, 14/10) (10, 35)
        (120, 255) gx gy mg dv hv sv = 0) := by
  unfold combinedThreshPixel
  simp only [gradMask_eq_one, dirMask_eq_one, colorMask_eq_one]
  constructor
  · split <;> simp_all
  · split <;> simp

/-! ## Rescaling edge case (C7) -/

/-- C7 (code evidence): on a uniform frame the frame-wide maximum of the
Sobel channel is `0`, and the rescaling of `abs_sobel_thresh` (line 49)
and of `mag_thresh` (lines 73-74) computes `0/0`, which numpy evaluates
to NaN (`none` here) rather than the value `0` the specification
requires; a nonzero maximum by contrast rescales a zero pixel to `0`. -/
theorem c7_rescale_divides_by_zero :
    rescaleSobel 0 0 = none ∧ rescaleMag 0 0 = none ∧
    rescaleSobel 0 1 = some 0 ∧ rescaleMag 0 255 = some 0 := by
  refine ⟨?_, ?_, ?_, ?_⟩ <;> norm_num [rescaleSobel, rescaleMag]

/-! ## Curvature radius at a = 0 (C8) -/

/-- C8: the curvature-radius computation of `curvature_in_meters`
(lines 459-460) never yields NaN — its numerator is the positive power
`(1 + (...)^2)**1.5` — and when the metric-space leading coefficient is
exactly `0` the denominator `|2a|` vanishes, so numpy reports the
quotient as `+inf` (no exception is raised; numpy division only warns). -/
theorem c8_radius_infinite_not_nan (a b y : ℚ) :
    radiusInMeters a b y ≠ CurvRes.nan ∧
    (a = 0 → radiusInMeters a b y = CurvRes.posInf) := by
  have hpos : (0 : ℚ) < 1 + (2 * a * y * ymPerPix + b) ^ 2 := by positivity
  have hne : 1 + (2 * a * y * ymPerPix + b) ^ 2 ≠ 0 := ne_of_gt hpos
  constructor
  · unfold radiusInMeters
    rcases eq_or_ne |2 * a| 0 with hd | hd
    · rw [if_pos hd, if_neg hne]
      intro h; exact CurvRes.noConfusion h
    · rw [if_neg hd]
      intro h; exact CurvRes.noConfusion h
  · intro ha
    subst ha
    unfold radiusInMeters
    rw [if_pos (by norm_num), if_neg hne]

/-- Witness for C8 at the concrete fit `a = 0`, `b = 3`, bottom row
`y = 719`. -/
theorem c8_radius_infinite_not_nan_witness :
    radiusInMeters 0 3 719 = CurvRes.posInf ∧
    radiusInMeters 0 3 719 ≠ CurvRes.nan :=
  ⟨(c8_radius_infinite_not_nan 0 3 719).2 rfl,
   (c8_radius_infinite_not_nan 0 3 719).1⟩

/-! ## Rounding helpers and the lateral offset (C5) -/

theorem roundHalfEven_lo (q : ℚ) (n : ℤ) (h1 : (n : ℚ) ≤ q)
    (h2 : q < (n : ℚ) + 1/2) : roundHalfEven q = n := by
  have hf : ⌊q⌋ = n := Int.floor_eq_iff.mpr ⟨h1, by linarith⟩
  simp only [roundHalfEven]
  rw [hf, if_pos (by linarith)]

theorem roundHalfEven_hi (q : ℚ) (n : ℤ) (h1 : (n : ℚ) + 1/2 < q)
    (h2 : q < (n : ℚ) + 1) : roundHalfEven q = n + 1 := by
  have hf : ⌊q⌋ = n := Int.floor_eq_iff.mpr ⟨by linarith, by linarith⟩
  simp only [roundHalfEven]
  rw [hf, if_neg (by linarith), if_pos (by linarith)]

theorem round2_zero : round2 0 = 0 := by
  have hr : roundHalfEven ((0 : ℚ) * 100) = 0 :=
    roundHalfEven_lo _ 0 (by norm_num) (by norm_num)
  unfold round2
  rw [hr]
  norm_num

/-- C5 (counterexample): at frame height `10`, width `1280` and the two
fits `x = y` for both lanes, the code's lateral offset (intercepts at
`y = 10`) is `3.33` m, while the value the claim describes (intercepts at
the bottom pixel row `y = 9`) is `3.34` m — the claim fails as stated. -/
theorem c5_counterexample :
    distFromCenter 10 1280 (0, 1, 0) (0, 1, 0) = 333/100 ∧
    specDistFromCenter 10 1280 (0, 1, 0) (0, 1, 0) = 167/50 ∧
    (333 : ℚ)/100 ≠ 167/50 := by
  refine ⟨?_, ?_, by norm_num⟩
  · show round2 (((((1280 : ℕ) / 2 : ℕ) : ℚ) -
        (evalFit (0, 1, 0) ((10 : ℕ) : ℚ) +
         evalFit (0, 1, 0) ((10 : ℕ) : ℚ)) / 2) * xmPerPix) = 333/100
    rw [show (((((1280 : ℕ) / 2 : ℕ) : ℚ) -
        (evalFit (0, 1, 0) ((10 : ℕ) : ℚ) +
         evalFit (0, 1, 0) ((10 : ℕ) : ℚ)) / 2) * xmPerPix) = 333/100 from by
      norm_num [evalFit, xmPerPix]]
    have hr : roundHalfEven ((333 : ℚ)/100 * 100) = 333 :=
      roundHalfEven_lo _ 333 (by norm_num) (by norm_num)
    unfold round2
    rw [hr]
    norm_num
  · show round2 (((((1280 : ℕ) / 2 : ℕ) : ℚ) -
        (evalFit (0, 1, 0) (((10 : ℕ) : ℚ) - 1) +
         evalFit (0, 1, 0) (((10 : ℕ) : ℚ) - 1)) / 2) * xmPerPix) = 167/50
    rw [show (((((1280 : ℕ) / 2 : ℕ) : ℚ) -
        (evalFit (0, 1, 0) (((10 : ℕ) : ℚ) - 1) +
         evalFit (0, 1, 0) (((10 : ℕ) : ℚ) - 1)) / 2) * xmPerPix) = 23347/7000 from by
      norm_num [evalFit, xmPerPix]]
    have hr : roundHalfEven ((23347 : ℚ)/7000 * 100) = 334 := by
      have h334 : roundHalfEven ((23347 : ℚ)/7000 * 100) = 333 + 1 :=
        roundHalfEven_hi _ 333 (by norm_num) (by norm_num)
      rw [h334]
      norm_num
    unfold round2
    rw [hr]
    norm_num

/-- C5 (amended): the lateral offset is
`round((width//2 - (left(h) + right(h))/2) * xm_per_pix, 2)` with both
intercepts evaluated at `y = height` (one past the bottom pixel row
`height - 1`), at `3.7` m per `700` px, positive when the vehicle is
right of lane center; in particular, for lanes symmetric about the
frame's horizontal midpoint (so the intercepts at `y = height` average to
`width//2`, e.g. lanes centered at `x = 640` in a width-1280 frame), the
offset is exactly `0.00` m. -/
theorem c5_lateral_offset_amended (h w : ℕ) (lf rf : ℚ × ℚ × ℚ)
    (hsym : evalFit lf (h : ℚ) + evalFit rf (h : ℚ) = 2 * ((w / 2 : ℕ) : ℚ)) :
    distFromCenter h w lf rf =
      round2 ((((w / 2 : ℕ) : ℚ) -
        (evalFit lf (h : ℚ) + evalFit rf (h : ℚ)) / 2) * xmPerPix) ∧
    distFromCenter h w lf rf = 0 := by
  have h0 : distFromCenter h w lf rf =
      round2 ((((w / 2 : ℕ) : ℚ) -
        (evalFit lf (h : ℚ) + evalFit rf (h : ℚ)) / 2) * xmPerPix) := rfl
  refine ⟨h0, ?_⟩
  rw [h0, hsym,
    show (((w / 2 : ℕ) : ℚ) - 2 * ((w / 2 : ℕ) : ℚ) / 2) * xmPerPix = 0 from by
      ring]
  exact round2_zero

/-- Witness for C5 (amended): symmetric fits around the midpoint of a
width-1280 frame at height 7 give a `0.00` m offset. -/
theorem c5_lateral_offset_amended_witness :
    evalFit (1, 2, 100) ((7 : ℕ) : ℚ) + evalFit (-1, -2, 1180) ((7 : ℕ) : ℚ) =
      2 * (((1280 : ℕ) / 2 : ℕ) : ℚ) ∧
    distFromCenter 7 1280 (1, 2, 100) (-1, -2, 1180) = 0 :=
  ⟨by norm_num [evalFit],
   (c5_lateral_offset_amended 7 1280 (1, 2, 100) (-1, -2, 1180)
     (by norm_num [evalFit])).2⟩

/-! ## Concrete evaluations of the search and fit stages -/

theorem findLanePixels_img9 :
    findLanePixels img9 = ([(4, 2), (4, 9)], [(4, 2), (4, 9)]) := by decide

theorem gramDet_44 : gramDet [(4 : ℚ), 4] = 0 := by
  norm_num [gramDet, powSum, det3]

theorem pixYs_44 : pixYs [(4, 2), (4, 9)] = [(4 : ℚ), 4] := by
  norm_num [pixYs]

theorem polyfitCore_44 (xs : List ℚ) :
    polyfitCore [(4 : ℚ), 4] xs = FitOutcome.degenerate := by
  unfold polyfitCore
  simp [gramDet_44]

theorem npPolyfit2_img9L :
    npPolyfit2 (pixYs [(4, 2), (4, 9)]) (pixXs [(4, 2), (4, 9)]) =
      Except.ok FitOutcome.degenerate := by
  unfold npPolyfit2
  rw [if_neg (by simp [pixYs]), pixYs_44, polyfitCore_44]

theorem fitPolynomialFits_img9 :
    fitPolynomialFits img9 =
      Except.ok (FitOutcome.degenerate, FitOutcome.degenerate) := by
  unfold fitPolynomialFits
  rw [findLanePixels_img9]
  show (do
    let lf ← npPolyfit2 (pixYs [(4, 2), (4, 9)]) (pixXs [(4, 2), (4, 9)])
    let rf ← npPolyfit2 (pixYs [(4, 2), (4, 9)]) (pixXs [(4, 2), (4, 9)])
    return (lf, rf)) = Except.ok (FitOutcome.degenerate, FitOutcome.degenerate)
  rw [npPolyfit2_img9L]
  rfl

theorem nonzeroPixels_img9 : nonzeroPixels img9 = [(4, 2), (4, 9)] := by decide

theorem priorSelect_img9 :
    priorSelect 100 [(4, 2), (4, 9)] (0, 0, 1000) = [] := by
  simp [priorSelect, evalFit, List.filter]
  norm_num

theorem searchAround_img9 :
    searchAroundPolyFits img9 (0, 0, 1000) (0, 0, 1000) =
      Except.error FitErr.emptyVector := by
  unfold searchAroundPolyFits
  rw [nonzeroPixels_img9]
  simp only [priorSelect_img9]
  rfl

theorem searchAround_imgZero :
    searchAroundPolyFits imgZero (0, 0, 1000) (0, 0, 1000) =
      Except.error FitErr.emptyVector := by
  unfold searchAroundPolyFits
  rw [show nonzeroPixels imgZero = [] from by decide]
  simp only [show (priorSelect 100 [] (0, 0, 1000) : List (ℕ × ℕ)) = [] from rfl]
  rfl

/-! ## Fit-error characterization (C2) -/

/-- C2 (counterexample): the left candidate pixel set of the concrete
frame `img9` has exactly two points (fewer than 3), yet the fitting step
of `fit_polynomial` surfaces no error: `np.polyfit` silently returns a
rank-deficient fit for each lane, refuting the claim that any pixel set
with fewer than 3 points surfaces a `FitUnavailable` condition. -/
theorem c2_counterexample :
    (findLanePixels img9).1.length = 2 ∧
    fitPolynomialFits img9 =
      Except.ok (FitOutcome.degenerate, FitOutcome.degenerate) := by
  refine ⟨?_, fitPolynomialFits_img9⟩
  rw [findLanePixels_img9]
  rfl

theorem npPolyfit2_ok_val (ys xs : List ℚ) (v : FitOutcome)
    (h : npPolyfit2 ys xs = Except.ok v) : v = polyfitCore ys xs := by
  unfold npPolyfit2 at h
  split at h
  · exact absurd h (by simp)
  · exact (Except.ok.inj h).symm

theorem fitPolynomialFits_ok (img : Img) (lf rf : FitOutcome)
    (hok : fitPolynomialFits img = Except.ok (lf, rf)) :
    lf = polyfitCore (pixYs (findLanePixels img).1) (pixXs (findLanePixels img).1) ∧
    rf = polyfitCore (pixYs (findLanePixels img).2) (pixXs (findLanePixels img).2) := by
  simp only [fitPolynomialFits] at hok
  cases h1 : npPolyfit2 (pixYs (findLanePixels img).1) (pixXs (findLanePixels img).1) with
  | error e => rw [h1] at hok; exact Except.noConfusion hok
  | ok l =>
      rw [h1] at hok
      cases h2 : npPolyfit2 (pixYs (findLanePixels img).2) (pixXs (findLanePixels img).2) with
      | error e =>
          rw [h2] at hok
          exact Except.noConfusion hok
      | ok r =>
          rw [h2] at hok
          have hpair : (l, r) = (lf, rf) := Except.ok.inj hok
          have hl : l = lf := congrArg Prod.fst hpair
          have hr : r = rf := congrArg Prod.snd hpair
          exact ⟨by rw [← hl]; exact npPolyfit2_ok_val _ _ _ h1,
                 by rw [← hr]; exact npPolyfit2_ok_val _ _ _ h2⟩

/-- C2 (amended): the fitting step raises only for an *empty* candidate
pixel set (the `TypeError` of `np.polyfit` on an empty vector); a set
with 1 or 2 points (or any rank-deficient set) is fitted silently.  And
on success `fit_polynomial` returns exactly the `np.polyfit` outcomes of
the two collected pixel sets — the historical placeholder curve
`x = y^2 + y` only ever affects plotting values, never the returned
fits. -/
theorem c2_fit_error_amended (ys xs : List ℚ) (img : Img) (lf rf : FitOutcome)
    (hok : fitPolynomialFits img = Except.ok (lf, rf)) :
    (npPolyfit2 ys xs = Except.error FitErr.emptyVector ↔ ys = []) ∧
    lf = polyfitCore (pixYs (findLanePixels img).1) (pixXs (findLanePixels img).1) ∧
    rf = polyfitCore (pixYs (findLanePixels img).2) (pixXs (findLanePixels img).2) := by
  refine ⟨?_, fitPolynomialFits_ok img lf rf hok⟩
  unfold npPolyfit2
  split
  · simp [*]
  · simp [*]

/-- Witness for C2 (amended) at a singleton pixel set and the concrete
frame `img9`. -/
theorem c2_fit_error_amended_witness :
    (npPolyfit2 [(0 : ℚ)] [(0 : ℚ)] = Except.error FitErr.emptyVector ↔
      [(0 : ℚ)] = []) ∧
    FitOutcome.degenerate =
      polyfitCore (pixYs (findLanePixels img9).1) (pixXs (findLanePixels img9).1) ∧
    FitOutcome.degenerate =
      polyfitCore (pixYs (findLanePixels img9).2) (pixXs (findLanePixels img9).2) :=
  c2_fit_error_amended [(0 : ℚ)] [(0 : ℚ)] img9 FitOutcome.degenerate
    FitOutcome.degenerate fitPolynomialFits_img9

/-! ## Tracker orchestration (C1, C10) -/

/-- C1 (counterexample): with both lanes `Found` (fits `x = 1000`), frame
`img9` makes prior-guided search raise (no pixels near the stored fits)
even though sliding-window search on the same frame would succeed — yet
`pipeline` propagates the error without any same-frame fallback, and the
tracker state stays `Found` with the stale fits rather than `NotFound`. -/
theorem c1_counterexample :
    pipelineStep stFound img9 = Except.error FitErr.emptyVector ∧
    fitPolynomialFits img9 =
      Except.ok (FitOutcome.degenerate, FitOutcome.degenerate) ∧
    stepState stFound img9 = stFound ∧
    stFound.left.found = true ∧ stFound.right.found = true := by
  have hstep : pipelineStep stFound img9 = Except.error FitErr.emptyVector := by
    simp [pipelineStep, pipelineFitStage, stFound, searchAround_img9]
  refine ⟨hstep, fitPolynomialFits_img9, ?_, rfl, rfl⟩
  unfold stepState
  rw [hstep]

/-- C1 (amended): when both lanes are `Found` and prior-guided search
raises a fit error, `pipeline` does *not* fall back to sliding-window
search in that frame: the exception propagates directly to the frame's
caller, and both lanes' state is left unchanged — still `Found`, with
the stale previous fits — so the next frame again attempts prior-guided
search. -/
theorem c1_prior_failure_propagates (st : Tracker) (img : Img)
    (a b c a2 b2 c2 : ℚ) (e : FitErr)
    (hl : st.left.found = true) (hr : st.right.found = true)
    (hLfit : st.left.previous_fit = some (FitOutcome.fit a b c))
    (hRfit : st.right.previous_fit = some (FitOutcome.fit a2 b2 c2))
    (herr : searchAroundPolyFits img (a, b, c) (a2, b2, c2) = Except.error e) :
    pipelineStep st img = Except.error e ∧ stepState st img = st := by
  have hstage : pipelineFitStage st img = Except.error e := by
    unfold pipelineFitStage
    rw [if_neg (by simp [hl, hr]), hLfit, hRfit]
    exact herr
  have hstep : pipelineStep st img = Except.error e := by
    unfold pipelineStep
    rw [hstage]
  refine ⟨hstep, ?_⟩
  unfold stepState
  rw [hstep]

/-- Witness for C1 (amended): the `Found`/`Found` state against an
all-zero frame. -/
theorem c1_prior_failure_propagates_witness :
    searchAroundPolyFits imgZero (0, 0, 1000) (0, 0, 1000) =
      Except.error FitErr.emptyVector ∧
    pipelineStep stFound imgZero = Except.error FitErr.emptyVector ∧
    stepState stFound imgZero = stFound :=
  ⟨searchAround_imgZero,
   (c1_prior_failure_propagates stFound imgZero 0 0 1000 0 0 1000
     FitErr.emptyVector rfl rfl rfl rfl searchAround_imgZero).1,
   (c1_prior_failure_propagates stFound imgZero 0 0 1000 0 0 1000
     FitErr.emptyVector rfl rfl rfl rfl searchAround_imgZero).2⟩

theorem pipelineStep_ok_shape (st : Tracker) (img : Img) (t : Tracker)
    (hok : pipelineStep st img = Except.ok t) :
    ∃ lf rf, pipelineFitStage st img = Except.ok (lf, rf) ∧
      t = ⟨⟨true, some lf⟩, ⟨true, some rf⟩⟩ := by
  unfold pipelineStep at hok
  cases hstage : pipelineFitStage st img with
  | error e => rw [hstage] at hok; exact absurd hok (by simp)
  | ok p =>
      rw [hstage] at hok
      cases p with
      | mk lf rf =>
          have ht := Except.ok.inj hok
          exact ⟨lf, rf, rfl, ht.symm⟩

theorem stepState_left_found (st : Tracker) (img : Img)
    (h : st.left.found = true) : (stepState st img).left.found = true := by
  unfold stepState
  cases hp : pipelineStep st img with
  | error e => exact h
  | ok t =>
      obtain ⟨lf, rf, _, ht⟩ := pipelineStep_ok_shape st img t hp
      rw [ht]

theorem stepState_right_found (st : Tracker) (img : Img)
    (h : st.right.found = true) : (stepState st img).right.found = true := by
  unfold stepState
  cases hp : pipelineStep st img with
  | error e => exact h
  | ok t =>
      obtain ⟨lf, rf, _, ht⟩ := pipelineStep_ok_shape st img t hp
      rw [ht]

theorem foldl_stepState_found (imgs : List Img) :
    ∀ st : Tracker, st.left.found = true → st.right.found = true →
      (List.foldl stepState st imgs).left.found = true ∧
      (List.foldl stepState st imgs).right.found = true := by
  induction imgs with
  | nil => exact fun st hl hr => ⟨hl, hr⟩
  | cons i is ih =>
      intro st hl hr
      simp only [List.foldl_cons]
      exact ih (stepState st i) (stepState_left_found st i hl)
        (stepState_right_found st i hr)

/-- C10: the tracker update of `pipeline` is unconditional — whenever a
frame returns (does not raise), both `found` flags are set and both
`previous_fit` fields are overwritten with that frame's fits, whatever
search strategy ran and whatever the fit quality; a `found` flag, once
true, is never reset by any frame; and after any completed frame, no
later state of the session ever selects sliding-window search again —
every later frame uses prior-guided search. -/
theorem c10_tracker_update_unconditional (st : Tracker) (img : Img)
    (t : Tracker) (hok : pipelineStep st img = Except.ok t) :
    (∃ lf rf, pipelineFitStage st img = Except.ok (lf, rf) ∧
        t = ⟨⟨true, some lf⟩, ⟨true, some rf⟩⟩) ∧
    (∀ st2 : Tracker, ∀ img2 : Img,
        (st2.left.found = true → (stepState st2 img2).left.found = true) ∧
        (st2.right.found = true → (stepState st2 img2).right.found = true)) ∧
    (∀ imgs : List Img, ¬ usesSliding (List.foldl stepState t imgs)) := by
  obtain ⟨lf, rf, hstage, ht⟩ := pipelineStep_ok_shape st img t hok
  refine ⟨⟨lf, rf, hstage, ht⟩, ?_, ?_⟩
  · exact fun st2 img2 =>
      ⟨stepState_left_found st2 img2, stepState_right_found st2 img2⟩
  · intro imgs hu
    have hfound := foldl_stepState_found imgs t (by rw [ht]) (by rw [ht])
    rcases hu with h | h
    · rw [hfound.1] at h; exact Bool.noConfusion h
    · rw [hfound.2] at h; exact Bool.noConfusion h

/-! ## Least-squares lemmas and the metric-space refit (C9) -/

theorem powSum_cons (y : ℚ) (ys : List ℚ) (j : ℕ) :
    powSum (y :: ys) j = y ^ j + powSum ys j := by
  simp [powSum]

theorem mixSum_cons (y x : ℚ) (ys xs : List ℚ) (j : ℕ) :
    mixSum (y :: ys) (x :: xs) j = y ^ j * x + mixSum ys xs j := by
  simp [mixSum]

theorem powSum_map_mul (k : ℚ) (ys : List ℚ) (j : ℕ) :
    powSum (ys.map (fun y => k * y)) j = k ^ j * powSum ys j := by
  induction ys with
  | nil => simp [powSum]
  | cons y ys ih =>
      simp only [List.map_cons, powSum_cons, ih]
      ring

theorem mixSum_map_mul (k m : ℚ) (ys xs : List ℚ) (j : ℕ) :
    mixSum (ys.map (fun y => k * y)) (xs.map (fun x => m * x)) j =
      k ^ j * m * mixSum ys xs j := by
  induction ys generalizing xs with
  | nil => simp [mixSum]
  | cons y ys ih =>
      cases xs with
      | nil => simp [mixSum]
      | cons x xs =>
          simp only [List.map_cons, mixSum_cons, ih]
          ring

theorem mixSum_self_eval (ys : List ℚ) (a b c : ℚ) (j : ℕ) :
    mixSum ys (ys.map (fun y => a * y ^ 2 + b * y + c)) j =
      a * powSum ys (j + 2) + b * powSum ys (j + 1) + c * powSum ys j := by
  induction ys with
  | nil => simp [mixSum, powSum]
  | cons y ys ih =>
      simp only [List.map_cons, mixSum_cons, powSum_cons, ih]
      ring

theorem gramDet_map_mul (k : ℚ) (ys : List ℚ) :
    gramDet (ys.map (fun y => k * y)) = k ^ 6 * gramDet ys := by
  unfold gramDet
  rw [powSum_map_mul, powSum_map_mul, powSum_map_mul, powSum_map_mul,
    powSum_map_mul]
  unfold det3
  ring

/-- Fitting noiseless samples of a quadratic recovers exactly that
quadratic: the converted coefficients satisfy the normal equations, and
Cramer's rule returns them when the Gram matrix is invertible. -/
theorem polyfitCore_exact (ys : List ℚ) (a b c : ℚ) (hd : gramDet ys ≠ 0) :
    polyfitCore ys (ys.map (fun y => a * y ^ 2 + b * y + c)) =
      FitOutcome.fit a b c := by
  simp only [polyfitCore]
  rw [if_neg hd]
  rw [mixSum_self_eval, mixSum_self_eval, mixSum_self_eval]
  have hA : det3 (a * powSum ys (2 + 2) + b * powSum ys (2 + 1) + c * powSum ys 2)
      (powSum ys 3) (powSum ys 2)
      (a * powSum ys (1 + 2) + b * powSum ys (1 + 1) + c * powSum ys 1)
      (powSum ys 2) (powSum ys 1)
      (a * powSum ys (0 + 2) + b * powSum ys (0 + 1) + c * powSum ys 0)
      (powSum ys 1) (powSum ys 0) = a * gramDet ys := by
    unfold gramDet det3
    norm_num
    ring
  have hB : det3 (powSum ys 4)
      (a * powSum ys (2 + 2) + b * powSum ys (2 + 1) + c * powSum ys 2)
      (powSum ys 2) (powSum ys 3)
      (a * powSum ys (1 + 2) + b * powSum ys (1 + 1) + c * powSum ys 1)
      (powSum ys 1) (powSum ys 2)
      (a * powSum ys (0 + 2) + b * powSum ys (0 + 1) + c * powSum ys 0)
      (powSum ys 0) = b * gramDet ys := by
    unfold gramDet det3
    norm_num
    ring
  have hC : det3 (powSum ys 4) (powSum ys 3)
      (a * powSum ys (2 + 2) + b * powSum ys (2 + 1) + c * powSum ys 2)
      (powSum ys 3) (powSum ys 2)
      (a * powSum ys (1 + 2) + b * powSum ys (1 + 1) + c * powSum ys 1)
      (powSum ys 2) (powSum ys 1)
      (a * powSum ys (0 + 2) + b * powSum ys (0 + 1) + c * powSum ys 0) =
      c * gramDet ys := by
    unfold gramDet det3
    norm_num
    ring
  rw [hA, hB, hC, mul_div_assoc, div_self hd, mul_one, mul_div_assoc,
    div_self hd, mul_one, mul_div_assoc, div_self hd, mul_one]

/-- Least squares commutes with the axis scalings `y ↦ k*y`, `x ↦ m*x`:
the fitted coefficients transform as `(m/k² a, m/k b, m c)`. -/
theorem polyfitCore_scale (k m : ℚ) (hk : k ≠ 0) (ys xs : List ℚ)
    (a b c : ℚ) (hfit : polyfitCore ys xs = FitOutcome.fit a b c) :
    polyfitCore (ys.map (fun y => k * y)) (xs.map (fun x => m * x)) =
      FitOutcome.fit (m / k ^ 2 * a) (m / k * b) (m * c) := by
  simp only [polyfitCore] at hfit ⊢
  by_cases hd : gramDet ys = 0
  · rw [if_pos hd] at hfit; exact absurd hfit (by simp)
  · rw [if_neg hd] at hfit
    obtain ⟨ha, hb, hc⟩ := FitOutcome.fit.inj hfit
    have hd6 : k ^ 6 * gramDet ys ≠ 0 := mul_ne_zero (pow_ne_zero 6 hk) hd
    rw [if_neg (by rw [gramDet_map_mul]; exact hd6)]
    rw [gramDet_map_mul, mixSum_map_mul, mixSum_map_mul, mixSum_map_mul,
      powSum_map_mul, powSum_map_mul, powSum_map_mul, powSum_map_mul,
      powSum_map_mul]
    rw [← ha, ← hb, ← hc]
    congr 1
    · field_simp
      unfold det3
      ring
    · field_simp
      unfold det3
      ring
    · field_simp
      unfold det3
      ring

/-- C9: the metric-space fit of `curvature_in_meters` — computed by
refitting on `h` noiseless samples of the pixel-space fit curve with both
axes converted to meters — coincides exactly (in the rational
idealisation) with the least-squares fit of the *detected* lane-pixel
point set converted to meters, both being the unit conversion
`(a·xm/ym², b·xm/ym, c·xm)` of the pixel-space coefficients; hence the
metric-space fit is least-squares optimal over the detected points in
the metric unit system whenever the pixel-space fit is least-squares
optimal over them in pixel space. -/
theorem c9_metric_fit_ls_optimal (h : ℕ) (ysP xsP : List ℚ) (a b c : ℚ)
    (hP : polyfitCore ysP xsP = FitOutcome.fit a b c)
    (hlin : gramDet (linspaceVals h) ≠ 0) :
    curvatureMetricFit h (a, b, c) =
      FitOutcome.fit (xmPerPix / ymPerPix ^ 2 * a) (xmPerPix / ymPerPix * b)
        (xmPerPix * c) ∧
    specMetricFitOnDetected ysP xsP =
      FitOutcome.fit (xmPerPix / ymPerPix ^ 2 * a) (xmPerPix / ymPerPix * b)
        (xmPerPix * c) := by
  have hym : ymPerPix ≠ 0 := by norm_num [ymPerPix]
  constructor
  · unfold curvatureMetricFit
    have hexact : polyfitCore (linspaceVals h)
        ((linspaceVals h).map (fun y => evalFit (a, b, c) y)) =
        FitOutcome.fit a b c := by
      have he := polyfitCore_exact (linspaceVals h) a b c hlin
      simpa [evalFit] using he
    exact polyfitCore_scale ymPerPix xmPerPix hym _ _ a b c hexact
  · exact polyfitCore_scale ymPerPix xmPerPix hym ysP xsP a b c hP

theorem gramDet_0123 : gramDet [(0 : ℚ), 1, 2, 3] = 80 := by
  norm_num [gramDet, powSum, det3]

theorem polyfitCore_0123 :
    polyfitCore [(0 : ℚ), 1, 2, 3] [0, 0, 0, 1] =
      FitOutcome.fit (1/4) (-9/20) (1/20) := by
  simp only [polyfitCore]
  rw [if_neg (by rw [gramDet_0123]; norm_num)]
  rw [gramDet_0123]
  norm_num [mixSum, powSum, det3]

theorem gramDet_lin3 : gramDet (linspaceVals 3) ≠ 0 := by
  have hl : linspaceVals 3 = [(0 : ℚ), 1, 2] := by
    norm_num [linspaceVals, List.range_succ]
  rw [hl]
  norm_num [gramDet, powSum, det3]

/-- Witness for C9 at a concrete detected point set (not itself
quadratic) and frame height 3. -/
theorem c9_metric_fit_ls_optimal_witness :
    polyfitCore [(0 : ℚ), 1, 2, 3] [0, 0, 0, 1] =
      FitOutcome.fit (1/4) (-9/20) (1/20) ∧
    curvatureMetricFit 3 (1/4, -9/20, 1/20) =
      FitOutcome.fit (xmPerPix / ymPerPix ^ 2 * (1/4))
        (xmPerPix / ymPerPix * (-9/20)) (xmPerPix * (1/20)) ∧
    specMetricFitOnDetected [(0 : ℚ), 1, 2, 3] [0, 0, 0, 1] =
      FitOutcome.fit (xmPerPix / ymPerPix ^ 2 * (1/4))
        (xmPerPix / ymPerPix * (-9/20)) (xmPerPix * (1/20)) :=
  ⟨polyfitCore_0123,
   (c9_metric_fit_ls_optimal 3 [(0 : ℚ), 1, 2, 3] [0, 0, 0, 1] (1/4) (-9/20)
     (1/20) polyfitCore_0123 gramDet_lin3).1,
   (c9_metric_fit_ls_optimal 3 [(0 : ℚ), 1, 2, 3] [0, 0, 0, 1] (1/4) (-9/20)
     (1/20) polyfitCore_0123 gramDet_lin3).2⟩

/-- Witness for C10: the first completed frame of a session sets both
flags, and the resulting state never selects sliding-window search. -/
theorem c10_tracker_update_unconditional_witness :
    pipelineStep stInit img9 = Except.ok
      ⟨⟨true, some FitOutcome.degenerate⟩, ⟨true, some FitOutcome.degenerate⟩⟩ ∧
    ¬ usesSliding (List.foldl stepState
      ⟨⟨true, some FitOutcome.degenerate⟩, ⟨true, some FitOutcome.degenerate⟩⟩
      [imgZero]) := by
  have hok : pipelineStep stInit img9 = Except.ok
      ⟨⟨true, some FitOutcome.degenerate⟩,
       ⟨true, some FitOutcome.degenerate⟩⟩ := by
    unfold pipelineStep pipelineFitStage
    rw [if_pos (by simp [stInit]), fitPolynomialFits_img9]
  exact ⟨hok, (c10_tracker_update_unconditional stInit img9
    ⟨⟨true, some FitOutcome.degenerate⟩, ⟨true, some FitOutcome.degenerate⟩⟩
    hok).2.2 [imgZero]⟩

/-! ## PerspectiveMapper invertibility (C6) -/

theorem smul3_smul3 (a b : ℚ) (v : V3) :
    smul3 a (smul3 b v) = smul3 (a * b) v := by
  obtain ⟨x, y, z⟩ := v
  simp only [smul3, Prod.mk.injEq]
  refine ⟨by ring, by ring, by ring⟩

theorem mulVec3_smul3 (M : M3) (a : ℚ) (v : V3) :
    mulVec3 M (smul3 a v) = smul3 a (mulVec3 M v) := by
  obtain ⟨⟨m11, m12, m13⟩, ⟨m21, m22, m23⟩, ⟨m31, m32, m33⟩⟩ := M
  obtain ⟨x, y, z⟩ := v
  simp only [mulVec3, smul3, dot3, Prod.mk.injEq]
  refine ⟨by ring, by ring, by ring⟩

theorem adj3_mulVec3 (M : M3) (v : V3) :
    mulVec3 (adj3 M) (mulVec3 M v) = smul3 (det3M M) v := by
  obtain ⟨⟨m11, m12, m13⟩, ⟨m21, m22, m23⟩, ⟨m31, m32, m33⟩⟩ := M
  obtain ⟨x, y, z⟩ := v
  simp only [mulVec3, adj3, det3M, det3, dot3, smul3, Prod.mk.injEq]
  refine ⟨by ring, by ring, by ring⟩

theorem mulMat3_mulVec3 (M N : M3) (v : V3) :
    mulVec3 (mulMat3 M N) v = mulVec3 M (mulVec3 N v) := by
  obtain ⟨⟨m11, m12, m13⟩, ⟨m21, m22, m23⟩, ⟨m31, m32, m33⟩⟩ := M
  obtain ⟨⟨n11, n12, n13⟩, ⟨n21, n22, n23⟩, ⟨n31, n32, n33⟩⟩ := N
  obtain ⟨x, y, z⟩ := v
  simp only [mulMat3, colMat, mulVec3, dot3, Prod.mk.injEq]
  refine ⟨by ring, by ring, by ring⟩

theorem quadMat_e1 (p1 p2 p3 p4 : ℚ × ℚ) :
    mulVec3 (quadMat p1 p2 p3 p4) (1, 0, 0) =
      smul3 (quadCoeffs p1 p2 p3 p4).1 (homogP p1) := by
  obtain ⟨x1, y1⟩ := p1
  simp only [quadMat, colMat, mulVec3, dot3, smul3, homogP, Prod.mk.injEq]
  refine ⟨by ring, by ring, by ring⟩

theorem quadMat_e2 (p1 p2 p3 p4 : ℚ × ℚ) :
    mulVec3 (quadMat p1 p2 p3 p4) (0, 1, 0) =
      smul3 (quadCoeffs p1 p2 p3 p4).2.1 (homogP p2) := by
  obtain ⟨x2, y2⟩ := p2
  simp only [quadMat, colMat, mulVec3, dot3, smul3, homogP, Prod.mk.injEq]
  refine ⟨by ring, by ring, by ring⟩

theorem quadMat_e3 (p1 p2 p3 p4 : ℚ × ℚ) :
    mulVec3 (quadMat p1 p2 p3 p4) (0, 0, 1) =
      smul3 (quadCoeffs p1 p2 p3 p4).2.2 (homogP p3) := by
  obtain ⟨x3, y3⟩ := p3
  simp only [quadMat, colMat, mulVec3, dot3, smul3, homogP, Prod.mk.injEq]
  refine ⟨by ring, by ring, by ring⟩

theorem mulVec3_colMat_ones (u v w : V3) :
    mulVec3 (colMat u v w) (1, 1, 1) = add3 u (add3 v w) := by
  obtain ⟨u1, u2, u3⟩ := u
  obtain ⟨v1, v2, v3⟩ := v
  obtain ⟨w1, w2, w3⟩ := w
  simp only [colMat, mulVec3, dot3, add3, Prod.mk.injEq]
  refine ⟨by ring, by ring, by ring⟩

theorem smul3_add3 (a : ℚ) (u v : V3) :
    smul3 a (add3 u v) = add3 (smul3 a u) (smul3 a v) := by
  obtain ⟨u1, u2, u3⟩ := u
  obtain ⟨v1, v2, v3⟩ := v
  simp only [add3, smul3, Prod.mk.injEq]
  refine ⟨by ring, by ring, by ring⟩

theorem smul3_one (v : V3) : smul3 1 v = v := by
  obtain ⟨v1, v2, v3⟩ := v
  simp only [smul3, Prod.mk.injEq]
  refine ⟨by ring, by ring, by ring⟩

theorem smul3_div (a d : ℚ) (u : V3) :
    smul3 (a / d) u = smul3 d⁻¹ (smul3 a u) := by
  obtain ⟨u1, u2, u3⟩ := u
  simp only [smul3, Prod.mk.injEq]
  refine ⟨by ring, by ring, by ring⟩

/-- Cramer's rule for a 3×3 system, stated without division: the
column-determinant combination of the columns equals the determinant
times the right-hand side. -/
theorem cramer3_identity (u v w t : V3) :
    add3 (smul3 (det3M (colMat t v w)) u)
      (add3 (smul3 (det3M (colMat u t w)) v)
        (smul3 (det3M (colMat u v t)) w)) =
      smul3 (det3M (colMat u v w)) t := by
  obtain ⟨u1, u2, u3⟩ := u
  obtain ⟨v1, v2, v3⟩ := v
  obtain ⟨w1, w2, w3⟩ := w
  obtain ⟨t1, t2, t3⟩ := t
  simp only [colMat, det3M, det3, smul3, add3, Prod.mk.injEq]
  refine ⟨by ring, by ring, by ring⟩

theorem quadMat_ones (p1 p2 p3 p4 : ℚ × ℚ)
    (hd : det3M (colMat (homogP p1) (homogP p2) (homogP p3)) ≠ 0) :
    mulVec3 (quadMat p1 p2 p3 p4) (1, 1, 1) = homogP p4 := by
  simp only [quadMat, quadCoeffs]
  rw [mulVec3_colMat_ones, smul3_div, smul3_div, smul3_div, ← smul3_add3,
    ← smul3_add3, cramer3_identity, smul3_smul3, inv_mul_cancel₀ hd,
    smul3_one]

theorem det3M_quadMat (p1 p2 p3 p4 : ℚ × ℚ) :
    det3M (quadMat p1 p2 p3 p4) =
      (quadCoeffs p1 p2 p3 p4).1 * (quadCoeffs p1 p2 p3 p4).2.1 *
        (quadCoeffs p1 p2 p3 p4).2.2 *
        det3M (colMat (homogP p1) (homogP p2) (homogP p3)) := by
  obtain ⟨x1, y1⟩ := p1
  obtain ⟨x2, y2⟩ := p2
  obtain ⟨x3, y3⟩ := p3
  obtain ⟨x4, y4⟩ := p4
  simp only [quadMat, quadCoeffs, colMat, homogP, det3M, det3, smul3]
  ring

theorem getPT_corner1 (s1 s2 s3 s4 d1 d2 d3 d4 : ℚ × ℚ)
    (hs : quadRegular s1 s2 s3 s4) (hdq : quadRegular d1 d2 d3 d4) :
    applyHomography (getPerspectiveTransform s1 s2 s3 s4 d1 d2 d3 d4) s1 =
      some d1 := by
  obtain ⟨hsD, hs1, hs2, hs3⟩ := hs
  obtain ⟨hdD, hd1, hd2, hd3⟩ := hdq
  have hdetS : det3M (quadMat s1 s2 s3 s4) ≠ 0 := by
    rw [det3M_quadMat]
    exact mul_ne_zero (mul_ne_zero (mul_ne_zero hs1 hs2) hs3) hsD
  have he1 : homogP s1 = smul3 ((quadCoeffs s1 s2 s3 s4).1)⁻¹
      (mulVec3 (quadMat s1 s2 s3 s4) (1, 0, 0)) := by
    rw [quadMat_e1, smul3_smul3, inv_mul_cancel₀ hs1, smul3_one]
  have hv : mulVec3 (getPerspectiveTransform s1 s2 s3 s4 d1 d2 d3 d4)
      (homogP s1) =
      smul3 (((quadCoeffs s1 s2 s3 s4).1)⁻¹ * det3M (quadMat s1 s2 s3 s4) *
        (quadCoeffs d1 d2 d3 d4).1) (homogP d1) := by
    unfold getPerspectiveTransform
    rw [mulMat3_mulVec3, he1, mulVec3_smul3, adj3_mulVec3, smul3_smul3,
      mulVec3_smul3, quadMat_e1, smul3_smul3]
  have hTne : ((quadCoeffs s1 s2 s3 s4).1)⁻¹ * det3M (quadMat s1 s2 s3 s4) *
      (quadCoeffs d1 d2 d3 d4).1 ≠ 0 :=
    mul_ne_zero (mul_ne_zero (inv_ne_zero hs1) hdetS) hd1
  unfold applyHomography
  rw [hv]
  obtain ⟨dx, dy⟩ := d1
  simp only [smul3, homogP, mul_one]
  rw [if_neg hTne]
  congr 1
  field_simp

theorem getPT_corner2 (s1 s2 s3 s4 d1 d2 d3 d4 : ℚ × ℚ)
    (hs : quadRegular s1 s2 s3 s4) (hdq : quadRegular d1 d2 d3 d4) :
    applyHomography (getPerspectiveTransform s1 s2 s3 s4 d1 d2 d3 d4) s2 =
      some d2 := by
  obtain ⟨hsD, hs1, hs2, hs3⟩ := hs
  obtain ⟨hdD, hd1, hd2, hd3⟩ := hdq
  have hdetS : det3M (quadMat s1 s2 s3 s4) ≠ 0 := by
    rw [det3M_quadMat]
    exact mul_ne_zero (mul_ne_zero (mul_ne_zero hs1 hs2) hs3) hsD
  have he2 : homogP s2 = smul3 ((quadCoeffs s1 s2 s3 s4).2.1)⁻¹
      (mulVec3 (quadMat s1 s2 s3 s4) (0, 1, 0)) := by
    rw [quadMat_e2, smul3_smul3, inv_mul_cancel₀ hs2, smul3_one]
  have hv : mulVec3 (getPerspectiveTransform s1 s2 s3 s4 d1 d2 d3 d4)
      (homogP s2) =
      smul3 (((quadCoeffs s1 s2 s3 s4).2.1)⁻¹ * det3M (quadMat s1 s2 s3 s4) *
        (quadCoeffs d1 d2 d3 d4).2.1) (homogP d2) := by
    unfold getPerspectiveTransform
    rw [mulMat3_mulVec3, he2, mulVec3_smul3, adj3_mulVec3, smul3_smul3,
      mulVec3_smul3, quadMat_e2, smul3_smul3]
  have hTne : ((quadCoeffs s1 s2 s3 s4).2.1)⁻¹ * det3M (quadMat s1 s2 s3 s4) *
      (quadCoeffs d1 d2 d3 d4).2.1 ≠ 0 :=
    mul_ne_zero (mul_ne_zero (inv_ne_zero hs2) hdetS) hd2
  unfold applyHomography
  rw [hv]
  obtain ⟨dx, dy⟩ := d2
  simp only [smul3, homogP, mul_one]
  rw [if_neg hTne]
  congr 1
  field_simp

theorem getPT_corner3 (s1 s2 s3 s4 d1 d2 d3 d4 : ℚ × ℚ)
    (hs : quadRegular s1 s2 s3 s4) (hdq : quadRegular d1 d2 d3 d4) :
    applyHomography (getPerspectiveTransform s1 s2 s3 s4 d1 d2 d3 d4) s3 =
      some d3 := by
  obtain ⟨hsD, hs1, hs2, hs3⟩ := hs
  obtain ⟨hdD, hd1, hd2, hd3⟩ := hdq
  have hdetS : det3M (quadMat s1 s2 s3 s4) ≠ 0 := by
    rw [det3M_quadMat]
    exact mul_ne_zero (mul_ne_zero (mul_ne_zero hs1 hs2) hs3) hsD
  have he3 : homogP s3 = smul3 ((quadCoeffs s1 s2 s3 s4).2.2)⁻¹
      (mulVec3 (quadMat s1 s2 s3 s4) (0, 0, 1)) := by
    rw [quadMat_e3, smul3_smul3, inv_mul_cancel₀ hs3, smul3_one]
  have hv : mulVec3 (getPerspectiveTransform s1 s2 s3 s4 d1 d2 d3 d4)
      (homogP s3) =
      smul3 (((quadCoeffs s1 s2 s3 s4).2.2)⁻¹ * det3M (quadMat s1 s2 s3 s4) *
        (quadCoeffs d1 d2 d3 d4).2.2) (homogP d3) := by
    unfold getPerspectiveTransform
    rw [mulMat3_mulVec3, he3, mulVec3_smul3, adj3_mulVec3, smul3_smul3,
      mulVec3_smul3, quadMat_e3, smul3_smul3]
  have hTne : ((quadCoeffs s1 s2 s3 s4).2.2)⁻¹ * det3M (quadMat s1 s2 s3 s4) *
      (quadCoeffs d1 d2 d3 d4).2.2 ≠ 0 :=
    mul_ne_zero (mul_ne_zero (inv_ne_zero hs3) hdetS) hd3
  unfold applyHomography
  rw [hv]
  obtain ⟨dx, dy⟩ := d3
  simp only [smul3, homogP, mul_one]
  rw [if_neg hTne]
  congr 1
  field_simp

theorem getPT_corner4 (s1 s2 s3 s4 d1 d2 d3 d4 : ℚ × ℚ)
    (hs : quadRegular s1 s2 s3 s4) (hdq : quadRegular d1 d2 d3 d4) :
    applyHomography (getPerspectiveTransform s1 s2 s3 s4 d1 d2 d3 d4) s4 =
      some d4 := by
  obtain ⟨hsD, hs1, hs2, hs3⟩ := hs
  obtain ⟨hdD, hd1, hd2, hd3⟩ := hdq
  have hdetS : det3M (quadMat s1 s2 s3 s4) ≠ 0 := by
    rw [det3M_quadMat]
    exact mul_ne_zero (mul_ne_zero (mul_ne_zero hs1 hs2) hs3) hsD
  have he4 : homogP s4 = mulVec3 (quadMat s1 s2 s3 s4) (1, 1, 1) :=
    (quadMat_ones s1 s2 s3 s4 hsD).symm
  have hv : mulVec3 (getPerspectiveTransform s1 s2 s3 s4 d1 d2 d3 d4)
      (homogP s4) = smul3 (det3M (quadMat s1 s2 s3 s4)) (homogP d4) := by
    unfold getPerspectiveTransform
    rw [mulMat3_mulVec3, he4, adj3_mulVec3, mulVec3_smul3,
      quadMat_ones d1 d2 d3 d4 hdD]
  unfold applyHomography
  rw [hv]
  obtain ⟨dx, dy⟩ := d4
  simp only [smul3, homogP, mul_one]
  rw [if_neg hdetS]
  congr 1
  field_simp

/-- C6: for any frame dimensions (subject to the quadrilaterals being
nondegenerate, which holds for all real frame sizes), the forward and
inverse transforms computed by `perspective_transform` are mutually
inverse on the configured quadrilaterals: the forward homography takes
each source-quad corner exactly to the matching destination-quad corner,
and the inverse homography takes each destination-quad corner exactly
back to the matching source-quad corner — exact equality over the
rationals, hence well within the 1e-3 pixel tolerance. -/
theorem c6_perspective_mutually_inverse (W H : ℚ)
    (hs : quadRegular (srcQuad W H 0) (srcQuad W H 1) (srcQuad W H 2)
      (srcQuad W H 3))
    (hdq : quadRegular (dstQuad W H 0) (dstQuad W H 1) (dstQuad W H 2)
      (dstQuad W H 3)) :
    (∀ i : Fin 4, applyHomography (forwardM W H) (srcQuad W H i) =
      some (dstQuad W H i)) ∧
    (∀ i : Fin 4, applyHomography (inverseM W H) (dstQuad W H i) =
      some (srcQuad W H i)) := by
  constructor
  · intro i
    fin_cases i
    · exact getPT_corner1 _ _ _ _ _ _ _ _ hs hdq
    · exact getPT_corner2 _ _ _ _ _ _ _ _ hs hdq
    · exact getPT_corner3 _ _ _ _ _ _ _ _ hs hdq
    · exact getPT_corner4 _ _ _ _ _ _ _ _ hs hdq
  · intro i
    fin_cases i
    · exact getPT_corner1 _ _ _ _ _ _ _ _ hdq hs
    · exact getPT_corner2 _ _ _ _ _ _ _ _ hdq hs
    · exact getPT_corner3 _ _ _ _ _ _ _ _ hdq hs
    · exact getPT_corner4 _ _ _ _ _ _ _ _ hdq hs

theorem srcQuadRegular_1280_720 :
    quadRegular (srcQuad 1280 720 0) (srcQuad 1280 720 1) (srcQuad 1280 720 2)
      (srcQuad 1280 720 3) := by
  norm_num [quadRegular, quadCoeffs, det3M, colMat, det3, homogP, srcQuad]

theorem dstQuadRegular_1280_720 :
    quadRegular (dstQuad 1280 720 0) (dstQuad 1280 720 1) (dstQuad 1280 720 2)
      (dstQuad 1280 720 3) := by
  norm_num [quadRegular, quadCoeffs, det3M, colMat, det3, homogP, dstQuad]

/-- Witness for C6 at the camera's actual frame dimensions 1280x720. -/
theorem c6_perspective_mutually_inverse_witness :
    quadRegular (srcQuad 1280 720 0) (srcQuad 1280 720 1) (srcQuad 1280 720 2)
      (srcQuad 1280 720 3) ∧
    quadRegular (dstQuad 1280 720 0) (dstQuad 1280 720 1) (dstQuad 1280 720 2)
      (dstQuad 1280 720 3) ∧
    (∀ i : Fin 4, applyHomography (inverseM 1280 720) (dstQuad 1280 720 i) =
      some (srcQuad 1280 720 i)) :=
  ⟨srcQuadRegular_1280_720, dstQuadRegular_1280_720,
   (c6_perspective_mutually_inverse 1280 720 srcQuadRegular_1280_720 dstQuadRegular_1280_720).2⟩

/-! ## Sliding-window search (C4) -/

theorem foldr_max_mem (l : List ℕ) (hne : l ≠ []) : l.foldr max 0 ∈ l := by
  induction l with
  | nil => exact absurd rfl hne
  | cons a l ih =>
      cases l with
      | nil => simp
      | cons b l2 =>
          rcases max_choice a ((b :: l2).foldr max 0) with h | h
          · simp only [List.foldr_cons] at h ⊢
            rw [h]
            exact List.mem_cons_self _ _
          · simp only [List.foldr_cons] at h ⊢
            rw [h]
            exact List.mem_cons_of_mem _ (ih (by simp))

theorem le_foldr_max (l : List ℕ) (x : ℕ) (hx : x ∈ l) : x ≤ l.foldr max 0 := by
  induction l with
  | nil => exact absurd hx (List.not_mem_nil x)
  | cons a l ih =>
      rcases List.mem_cons.mp hx with h | h
      · subst h; exact le_max_left _ _
      · exact le_trans (ih h) (le_max_right _ _)

theorem argmaxFirst_lt (l : List ℕ) (hne : l ≠ []) : argmaxFirst l < l.length := by
  unfold argmaxFirst
  exact List.indexOf_lt_length.mpr (foldr_max_mem l hne)

theorem getD_argmaxFirst (l : List ℕ) (hne : l ≠ []) :
    l.getD (argmaxFirst l) 0 = l.foldr max 0 := by
  unfold argmaxFirst
  have hm := foldr_max_mem l hne
  have hlt := List.indexOf_lt_length.mpr hm
  rw [List.getD_eq_getElem l 0 hlt]
  exact List.getElem_indexOf hlt

theorem getD_ne_of_lt_indexOf (l : List ℕ) (a : ℕ) :
    ∀ j, j < l.indexOf a → l.getD j 0 ≠ a := by
  induction l with
  | nil => intro j hj; simp [List.indexOf] at hj
  | cons b l ih =>
      intro j hj
      rw [List.indexOf_cons] at hj
      cases hba : (b == a) with
      | true => rw [hba] at hj; simp at hj
      | false =>
          rw [hba] at hj
          simp only [cond_false] at hj
          cases j with
          | zero =>
              have hba2 : b ≠ a := by
                intro he
                rw [he] at hba
                simp at hba
              simpa using hba2
          | succ j2 =>
              have hj2 : j2 < l.indexOf a := by omega
              simpa using ih j2 hj2

theorem argmaxFirst_le (l : List ℕ) (hne : l ≠ []) :
    ∀ j, j < l.length → l.getD j 0 ≤ l.getD (argmaxFirst l) 0 := by
  intro j hj
  rw [getD_argmaxFirst l hne]
  apply le_foldr_max
  rw [List.getD_eq_getElem l 0 hj]
  exact List.getElem_mem hj

theorem argmaxFirst_strict (l : List ℕ) (hne : l ≠ []) :
    ∀ j, j < argmaxFirst l → l.getD j 0 < l.getD (argmaxFirst l) 0 := by
  intro j hj
  have hjlen : j < l.length := lt_trans hj (argmaxFirst_lt l hne)
  have hle := argmaxFirst_le l hne j hjlen
  have hne2 : l.getD j 0 ≠ l.getD (argmaxFirst l) 0 := by
    rw [getD_argmaxFirst l hne]
    exact getD_ne_of_lt_indexOf l (l.foldr max 0) j hj
  exact lt_of_le_of_ne hle hne2

theorem interval_unique_int (wh : ℤ) (hwh : 0 < wh) (a b y : ℤ)
    (ha : a * wh ≤ y) (hay : y < (a + 1) * wh)
    (hb : b * wh ≤ y) (hby : y < (b + 1) * wh) : a = b := by
  rcases lt_trichotomy a b with h | h | h
  · exfalso
    have h1 : a + 1 ≤ b := by omega
    have h2 : (a + 1) * wh ≤ b * wh :=
      mul_le_mul_of_nonneg_right h1 (le_of_lt hwh)
    linarith
  · exact h
  · exfalso
    have h1 : b + 1 ≤ a := by omega
    have h2 : (b + 1) * wh ≤ a * wh :=
      mul_le_mul_of_nonneg_right h1 (le_of_lt hwh)
    linarith

theorem window_tiling (wh y : ℕ) (hwh : 0 < wh) (hy : y < 9 * wh) :
    ∃! k : ℕ, k < 9 ∧ ((9 * wh : ℤ) - (k + 1) * wh ≤ (y : ℤ) ∧
      (y : ℤ) < (9 * wh : ℤ) - k * wh) := by
  have hdm : wh * (y / wh) + y % wh = y := Nat.div_add_mod y wh
  have hr : y % wh < wh := Nat.mod_lt y hwh
  have hq8 : y / wh ≤ 8 := by
    by_contra hgt
    have h9 : 9 ≤ y / wh := by omega
    have : 9 * wh ≤ y / wh * wh := Nat.mul_le_mul_right wh h9
    have hle : y / wh * wh ≤ y := Nat.div_mul_le_self y wh
    omega
  have hb1 : ((y / wh : ℕ) : ℤ) * wh ≤ (y : ℤ) := by
    have h1 : (y / wh) * wh ≤ y := Nat.div_mul_le_self y wh
    exact_mod_cast h1
  have hb2 : (y : ℤ) < (((y / wh : ℕ) : ℤ) + 1) * wh := by
    have h1 : y < (y / wh + 1) * wh := by
      calc y = wh * (y / wh) + y % wh := hdm.symm
      _ < wh * (y / wh) + wh := by omega
      _ = (y / wh + 1) * wh := by ring
    exact_mod_cast h1
  refine ⟨8 - y / wh, ⟨⟨Nat.lt_succ_of_le (Nat.sub_le 8 (y / wh)), ?_, ?_⟩, ?_⟩⟩
  · have hcast : ((8 - y / wh : ℕ) : ℤ) = 8 - ((y / wh : ℕ) : ℤ) := by
      push_cast [Nat.cast_sub hq8]
      ring
    rw [hcast]
    have hring : (9 * wh : ℤ) - (8 - ((y / wh : ℕ) : ℤ) + 1) * wh =
        ((y / wh : ℕ) : ℤ) * wh := by ring
    rw [hring]
    exact hb1
  · have hcast : ((8 - y / wh : ℕ) : ℤ) = 8 - ((y / wh : ℕ) : ℤ) := by
      push_cast [Nat.cast_sub hq8]
      ring
    rw [hcast]
    have hring : (9 * wh : ℤ) - (8 - ((y / wh : ℕ) : ℤ)) * wh =
        (((y / wh : ℕ) : ℤ) + 1) * wh := by ring
    rw [hring]
    exact hb2
  · intro k2 hk2
    obtain ⟨hk29, hlo, hhi⟩ := hk2
    have hwz : (0 : ℤ) < (wh : ℤ) := by exact_mod_cast hwh
    have ha : ((8 : ℤ) - k2) * wh ≤ (y : ℤ) := by
      have : (9 * wh : ℤ) - (k2 + 1) * wh = ((8 : ℤ) - k2) * wh := by ring
      linarith [hlo, this.symm.le, this.le]
    have hay : (y : ℤ) < ((8 : ℤ) - k2 + 1) * wh := by
      have : (9 * wh : ℤ) - (k2 : ℤ) * wh = ((8 : ℤ) - k2 + 1) * wh := by ring
      linarith [hhi]
    have heq := interval_unique_int (wh : ℤ) hwz ((8 : ℤ) - k2)
      ((y / wh : ℕ) : ℤ) (y : ℤ) ha hay hb1 hb2
    have : (k2 : ℤ) = 8 - ((y / wh : ℕ) : ℤ) := by linarith
    omega

theorem sum_map_getD (rows : List (List ℕ)) (g : List ℕ → ℕ) :
    (rows.map g).sum = ∑ i in Finset.range rows.length, g (rows.getD i []) := by
  induction rows with
  | nil => simp
  | cons r rows ih =>
      rw [List.map_cons, List.sum_cons, List.length_cons,
        Finset.sum_range_succ']
      simp only [List.getD_cons_succ, List.getD_cons_zero]
      rw [ih]
      ring

theorem getD_drop (l : List (List ℕ)) (k i : ℕ) :
    (l.drop k).getD i [] = l.getD (k + i) [] := by
  by_cases h : k + i < l.length
  · have h2 : i < (l.drop k).length := by
      rw [List.length_drop]
      omega
    rw [List.getD_eq_getElem _ _ h2, List.getD_eq_getElem _ _ h,
      List.getElem_drop]
  · have h2 : ¬ i < (l.drop k).length := by
      rw [List.length_drop]
      omega
    rw [List.getD_eq_default _ _ (by omega), List.getD_eq_default _ _ (by
      rw [List.length_drop] at h2
      omega)]

theorem histogram_getD (img : Img) (c : ℕ) (hc : c < imgWidth img) :
    (histogram img).getD c 0 =
      ∑ y in Finset.Ico (imgHeight img / 2) (imgHeight img),
        (img.getD y []).getD c 0 := by
  unfold histogram
  have hlen : c < ((List.range (imgWidth img)).map
      (fun c2 => colSum (img.drop (imgHeight img / 2)) c2)).length := by
    simpa using hc
  rw [List.getD_eq_getElem _ 0 hlen, List.getElem_map, List.getElem_range]
  unfold colSum
  rw [sum_map_getD, Finset.sum_Ico_eq_sum_range]
  have hlen2 : (img.drop (imgHeight img / 2)).length =
      imgHeight img - imgHeight img / 2 := by
    rw [List.length_drop]
    rfl
  rw [hlen2]
  refine Finset.sum_congr rfl ?_
  intro i _
  rw [getD_drop]

theorem rowNonzeros_mem (yv : ℕ) (row : List ℕ) :
    ∀ x0 p, p ∈ rowNonzeros yv x0 row ↔
      p.1 = yv ∧ ∃ j, j < row.length ∧ p.2 = x0 + j ∧ row.getD j 0 ≠ 0 := by
  induction row with
  | nil => intro x0 p; simp [rowNonzeros]
  | cons v vs ih =>
      intro x0 p
      obtain ⟨py, px⟩ := p
      simp only [rowNonzeros, List.mem_append]
      constructor
      · intro hmem
        rcases hmem with hm | hm
        · by_cases hv : v ≠ 0
          · rw [if_pos hv] at hm
            simp only [List.mem_singleton, Prod.mk.injEq] at hm
            exact ⟨hm.1, 0, by simp, by simpa using hm.2, by simpa using hv⟩
          · rw [if_neg hv] at hm
            simp at hm
        · obtain ⟨hy, j, hj, hx, hval⟩ := (ih (x0 + 1) (py, px)).mp hm
          exact ⟨hy, j + 1, by simpa using hj, by simp at hx ⊢; omega,
            by simpa using hval⟩
      · rintro ⟨hy, j, hj, hx, hval⟩
        cases j with
        | zero =>
            left
            simp only [List.getD_cons_zero] at hval
            rw [if_pos hval]
            simp only [List.mem_singleton, Prod.mk.injEq]
            exact ⟨hy, by simpa using hx⟩
        | succ j2 =>
            right
            refine (ih (x0 + 1) (py, px)).mpr ⟨hy, j2, by simp at hj; omega,
              by simp at hx ⊢; omega, by simpa using hval⟩

theorem nonzeroFrom_mem (rows : List (List ℕ)) :
    ∀ y0 p, p ∈ nonzeroFrom y0 rows ↔
      ∃ i, i < rows.length ∧ p.1 = y0 + i ∧ p.2 < (rows.getD i []).length ∧
        (rows.getD i []).getD p.2 0 ≠ 0 := by
  induction rows with
  | nil => intro y0 p; simp [nonzeroFrom]
  | cons r rows ih =>
      intro y0 p
      obtain ⟨py, px⟩ := p
      simp only [nonzeroFrom, List.mem_append]
      constructor
      · intro hmem
        rcases hmem with hm | hm
        · obtain ⟨hy, j, hj, hx, hval⟩ := (rowNonzeros_mem y0 r 0 (py, px)).mp hm
          refine ⟨0, by simp, by simpa using hy, ?_, ?_⟩
          · simp only [List.getD_cons_zero]
            simp only at hx
            omega
          · simp only [List.getD_cons_zero]
            simp only at hx
            have : px = j := by omega
            rw [this]
            exact hval
        · obtain ⟨i, hi, hy, hx, hval⟩ := (ih (y0 + 1) (py, px)).mp hm
          exact ⟨i + 1, by simpa using hi, by simp at hy ⊢; omega,
            by simpa using hx, by simpa using hval⟩
      · rintro ⟨i, hi, hy, hx, hval⟩
        cases i with
        | zero =>
            left
            refine (rowNonzeros_mem y0 r 0 (py, px)).mpr
              ⟨by simpa using hy, px, ?_, by simp, ?_⟩
            · simpa using hx
            · simpa using hval
        | succ i2 =>
            right
            refine (ih (y0 + 1) (py, px)).mpr ⟨i2, by simp at hi; omega,
              by simp at hy ⊢; omega, by simpa using hx, by simpa using hval⟩

theorem nonzeroPixels_mem (img : Img) (y x : ℕ) :
    (y, x) ∈ nonzeroPixels img ↔
      y < imgHeight img ∧ x < (img.getD y []).length ∧
        (img.getD y []).getD x 0 ≠ 0 := by
  unfold nonzeroPixels
  rw [nonzeroFrom_mem]
  constructor
  · rintro ⟨i, hi, hy, hx, hval⟩
    simp only at hy hx hval
    have hyi : y = i := by omega
    subst hyi
    exact ⟨hi, hx, hval⟩
  · rintro ⟨hy, hx, hval⟩
    exact ⟨y, hy, by simp, hx, hval⟩

theorem windowPixels_mem (h wh margin : ℕ) (nz : List (ℕ × ℕ)) (w c : ℕ)
    (p : ℕ × ℕ) :
    p ∈ windowPixels h wh margin nz w c ↔
      p ∈ nz ∧ (h : ℤ) - (w + 1) * wh ≤ (p.1 : ℤ) ∧
        (p.1 : ℤ) < (h : ℤ) - w * wh ∧ (c : ℤ) - margin ≤ (p.2 : ℤ) ∧
        (p.2 : ℤ) < (c : ℤ) + margin := by
  unfold windowPixels
  rw [List.mem_filter]
  simp [and_assoc]

theorem laneLoop_eq_bind (h wh margin minpix : ℕ) (nz : List (ℕ × ℕ))
    (base : ℕ) :
    ∀ n k, laneLoop h wh margin minpix nz n k
        (centerSeq h wh margin minpix nz base k) =
      (List.range' k n).flatMap
        (fun w => windowPixels h wh margin nz w
          (centerSeq h wh margin minpix nz base w)) := by
  intro n
  induction n with
  | zero => intro k; simp [laneLoop]
  | succ n2 ih =>
      intro k
      have hstep : laneLoop h wh margin minpix nz (n2 + 1) k
          (centerSeq h wh margin minpix nz base k) =
          windowPixels h wh margin nz k
            (centerSeq h wh margin minpix nz base k) ++
          laneLoop h wh margin minpix nz n2 (k + 1)
            (centerSeq h wh margin minpix nz base (k + 1)) := rfl
      rw [hstep, ih (k + 1), List.range'_succ]
      rfl

theorem findLanePixels_eq_bind (img : Img) :
    findLanePixels img =
      ((List.range 9).flatMap (fun w =>
        windowPixels (imgHeight img) (imgHeight img / 9) 100
          (nonzeroPixels img) w
          (centerSeq (imgHeight img) (imgHeight img / 9) 100 50
            (nonzeroPixels img)
            (argmaxFirst ((histogram img).take ((histogram img).length / 2)))
            w)),
       (List.range 9).flatMap (fun w =>
        windowPixels (imgHeight img) (imgHeight img / 9) 100
          (nonzeroPixels img) w
          (centerSeq (imgHeight img) (imgHeight img / 9) 100 50
            (nonzeroPixels img)
            (argmaxFirst ((histogram img).drop ((histogram img).length / 2)) +
              (histogram img).length / 2)
            w))) := by
  have hfl : findLanePixels img =
      (laneLoop (imgHeight img) (imgHeight img / 9) 100 50 (nonzeroPixels img)
        9 0 (argmaxFirst ((histogram img).take ((histogram img).length / 2))),
       laneLoop (imgHeight img) (imgHeight img / 9) 100 50 (nonzeroPixels img)
        9 0 (argmaxFirst ((histogram img).drop ((histogram img).length / 2)) +
          (histogram img).length / 2)) := rfl
  rw [hfl, List.range_eq_range']
  have h1 := laneLoop_eq_bind (imgHeight img) (imgHeight img / 9) 100 50
    (nonzeroPixels img)
    (argmaxFirst ((histogram img).take ((histogram img).length / 2))) 9 0
  have h2 := laneLoop_eq_bind (imgHeight img) (imgHeight img / 9) 100 50
    (nonzeroPixels img)
    (argmaxFirst ((histogram img).drop ((histogram img).length / 2)) +
      (histogram img).length / 2) 9 0
  rw [show centerSeq (imgHeight img) (imgHeight img / 9) 100 50
      (nonzeroPixels img)
      (argmaxFirst ((histogram img).take ((histogram img).length / 2))) 0 =
      argmaxFirst ((histogram img).take ((histogram img).length / 2))
    from rfl] at h1
  rw [show centerSeq (imgHeight img) (imgHeight img / 9) 100 50
      (nonzeroPixels img)
      (argmaxFirst ((histogram img).drop ((histogram img).length / 2)) +
        (histogram img).length / 2) 0 =
      argmaxFirst ((histogram img).drop ((histogram img).length / 2)) +
        (histogram img).length / 2 from rfl] at h2
  rw [h1, h2]

theorem getD_take2 (l : List ℕ) (k i : ℕ) (hik : i < k) :
    (l.take k).getD i 0 = l.getD i 0 := by
  by_cases hl : i < l.length
  · have h2 : i < (l.take k).length := by
      rw [List.length_take]
      omega
    rw [List.getD_eq_getElem _ _ h2, List.getD_eq_getElem _ _ hl,
      List.getElem_take]
  · have h2 : ¬ i < (l.take k).length := by
      rw [List.length_take]
      omega
    rw [List.getD_eq_default _ _ (by omega),
      List.getD_eq_default _ _ (by omega)]

theorem getD_drop2 (l : List ℕ) (k i : ℕ) :
    (l.drop k).getD i 0 = l.getD (k + i) 0 := by
  by_cases h : k + i < l.length
  · have h2 : i < (l.drop k).length := by
      rw [List.length_drop]
      omega
    rw [List.getD_eq_getElem _ _ h2, List.getD_eq_getElem _ _ h,
      List.getElem_drop]
  · have h2 : ¬ i < (l.drop k).length := by
      rw [List.length_drop]
      omega
    rw [List.getD_eq_default _ _ (by omega), List.getD_eq_default _ _ (by
      rw [List.length_drop] at h2
      omega)]

theorem histogram_length (img : Img) :
    (histogram img).length = imgWidth img := by
  unfold histogram
  simp

/-- C4: the sliding-window search of `find_lane_pixels`:
the histogram is the column-wise sum of the bottom half of the frame; the
left base is the first (lowest-index) maximum of the left half of the
histogram and the right base is the first maximum of the right half plus
the half-width offset; the 9 windows of height `h/9` tile the frame
height exactly (from the bottom up) when `9 ∣ h`; the collected pixels
are exactly the image's nonzero pixels lying in each window's row range
and in the half-open column range `[c - 100, c + 100)` around the
window's center; and the next window is recentered at the (truncated)
mean x of the collected pixels exactly when strictly more than 50 pixels
were collected, else keeps the previous center, starting from the bases
and accumulating all 9 windows per lane. -/
theorem c4_sliding_window_search (img : Img) (hw : 2 ≤ imgWidth img) (h0 : 0 < imgHeight img)
    (hdvd : 9 ∣ imgHeight img) :
    (∀ c, c < imgWidth img → (histogram img).getD c 0 =
      ∑ y in Finset.Ico (imgHeight img / 2) (imgHeight img),
        (img.getD y []).getD c 0) ∧
    (argmaxFirst ((histogram img).take ((histogram img).length / 2)) <
        (histogram img).length / 2 ∧
      (∀ j, j < (histogram img).length / 2 → (histogram img).getD j 0 ≤
        (histogram img).getD
          (argmaxFirst ((histogram img).take ((histogram img).length / 2))) 0) ∧
      (∀ j, j < argmaxFirst ((histogram img).take ((histogram img).length / 2)) →
        (histogram img).getD j 0 <
        (histogram img).getD
          (argmaxFirst ((histogram img).take ((histogram img).length / 2))) 0)) ∧
    ((histogram img).length / 2 ≤
        argmaxFirst ((histogram img).drop ((histogram img).length / 2)) +
          (histogram img).length / 2 ∧
      argmaxFirst ((histogram img).drop ((histogram img).length / 2)) +
          (histogram img).length / 2 < (histogram img).length ∧
      (∀ j, (histogram img).length / 2 ≤ j → j < (histogram img).length →
        (histogram img).getD j 0 ≤ (histogram img).getD
          (argmaxFirst ((histogram img).drop ((histogram img).length / 2)) +
            (histogram img).length / 2) 0) ∧
      (∀ j, (histogram img).length / 2 ≤ j →
        j < argmaxFirst ((histogram img).drop ((histogram img).length / 2)) +
          (histogram img).length / 2 →
        (histogram img).getD j 0 < (histogram img).getD
          (argmaxFirst ((histogram img).drop ((histogram img).length / 2)) +
            (histogram img).length / 2) 0)) ∧
    (∀ y, y < imgHeight img → ∃! k : ℕ, k < 9 ∧
      ((imgHeight img : ℤ) - (k + 1) * ((imgHeight img / 9 : ℕ) : ℤ) ≤ (y : ℤ) ∧
       (y : ℤ) < (imgHeight img : ℤ) - k * ((imgHeight img / 9 : ℕ) : ℤ))) ∧
    (findLanePixels img =
      ((List.range 9).flatMap (fun w =>
        windowPixels (imgHeight img) (imgHeight img / 9) 100
          (nonzeroPixels img) w
          (centerSeq (imgHeight img) (imgHeight img / 9) 100 50
            (nonzeroPixels img)
            (argmaxFirst ((histogram img).take ((histogram img).length / 2)))
            w)),
       (List.range 9).flatMap (fun w =>
        windowPixels (imgHeight img) (imgHeight img / 9) 100
          (nonzeroPixels img) w
          (centerSeq (imgHeight img) (imgHeight img / 9) 100 50
            (nonzeroPixels img)
            (argmaxFirst ((histogram img).drop ((histogram img).length / 2)) +
              (histogram img).length / 2)
            w)))) ∧
    (∀ w c p, p ∈ windowPixels (imgHeight img) (imgHeight img / 9) 100
        (nonzeroPixels img) w c ↔
      p ∈ nonzeroPixels img ∧
        (imgHeight img : ℤ) - (w + 1) * ((imgHeight img / 9 : ℕ) : ℤ) ≤ (p.1 : ℤ) ∧
        (p.1 : ℤ) < (imgHeight img : ℤ) - w * ((imgHeight img / 9 : ℕ) : ℤ) ∧
        (c : ℤ) - 100 ≤ (p.2 : ℤ) ∧ (p.2 : ℤ) < (c : ℤ) + 100) ∧
    (∀ y x, (y, x) ∈ nonzeroPixels img ↔
      y < imgHeight img ∧ x < (img.getD y []).length ∧
        (img.getD y []).getD x 0 ≠ 0) ∧
    (∀ w c, (50 < (windowPixels (imgHeight img) (imgHeight img / 9) 100
        (nonzeroPixels img) w c).length →
        nextCenter (imgHeight img) (imgHeight img / 9) 100 50
          (nonzeroPixels img) w c =
        ((windowPixels (imgHeight img) (imgHeight img / 9) 100
          (nonzeroPixels img) w c).map Prod.snd).sum /
        (windowPixels (imgHeight img) (imgHeight img / 9) 100
          (nonzeroPixels img) w c).length) ∧
      (¬ 50 < (windowPixels (imgHeight img) (imgHeight img / 9) 100
        (nonzeroPixels img) w c).length →
        nextCenter (imgHeight img) (imgHeight img / 9) 100 50
          (nonzeroPixels img) w c = c)) := by
  have histLen := histogram_length img
  have hmid1 : 1 ≤ (histogram img).length / 2 := by omega
  have hmidlen : (histogram img).length / 2 < (histogram img).length := by omega
  refine ⟨?_, ?_, ?_, ?_, findLanePixels_eq_bind img, ?_, ?_, ?_⟩
  · intro c hc
    exact histogram_getD img c hc
  · -- left base
    have htne : (histogram img).take ((histogram img).length / 2) ≠ [] := by
      intro he
      have := congrArg List.length he
      simp only [List.length_take, List.length_nil] at this
      omega
    have htlen : ((histogram img).take ((histogram img).length / 2)).length =
        (histogram img).length / 2 := by
      rw [List.length_take]
      omega
    have hL := argmaxFirst_lt _ htne
    rw [htlen] at hL
    refine ⟨hL, ?_, ?_⟩
    · intro j hj
      have h1 := argmaxFirst_le _ htne j (by rw [htlen]; exact hj)
      rwa [getD_take2 _ _ _ hj, getD_take2 _ _ _ hL] at h1
    · intro j hj
      have h1 := argmaxFirst_strict _ htne j hj
      have hjm : j < (histogram img).length / 2 := lt_trans hj hL
      rwa [getD_take2 _ _ _ hjm, getD_take2 _ _ _ hL] at h1
  · -- right base
    have hdne : (histogram img).drop ((histogram img).length / 2) ≠ [] := by
      intro he
      have := congrArg List.length he
      simp only [List.length_drop, List.length_nil] at this
      omega
    have hdlen : ((histogram img).drop ((histogram img).length / 2)).length =
        (histogram img).length - (histogram img).length / 2 :=
      List.length_drop _ _
    have hA := argmaxFirst_lt _ hdne
    rw [hdlen] at hA
    refine ⟨Nat.le_add_left _ _, by omega, ?_, ?_⟩
    · intro j hj1 hj2
      have h1 := argmaxFirst_le _ hdne (j - (histogram img).length / 2)
        (by rw [hdlen]; omega)
      rw [getD_drop2, getD_drop2] at h1
      have he1 : (histogram img).length / 2 + (j - (histogram img).length / 2) = j := by
        omega
      rw [he1] at h1
      have he2 : (histogram img).length / 2 +
          argmaxFirst ((histogram img).drop ((histogram img).length / 2)) =
          argmaxFirst ((histogram img).drop ((histogram img).length / 2)) +
          (histogram img).length / 2 := by omega
      rwa [he2] at h1
    · intro j hj1 hj2
      have h1 := argmaxFirst_strict _ hdne (j - (histogram img).length / 2)
        (by omega)
      rw [getD_drop2, getD_drop2] at h1
      have he1 : (histogram img).length / 2 + (j - (histogram img).length / 2) = j := by
        omega
      rw [he1] at h1
      have he2 : (histogram img).length / 2 +
          argmaxFirst ((histogram img).drop ((histogram img).length / 2)) =
          argmaxFirst ((histogram img).drop ((histogram img).length / 2)) +
          (histogram img).length / 2 := by omega
      rwa [he2] at h1
  · -- tiling
    intro y hy
    obtain ⟨wh, hwh⟩ := hdvd
    have h9 : imgHeight img / 9 = wh := by omega
    have hwh0 : 0 < wh := by omega
    have hy2 : y < 9 * wh := by omega
    have ht := window_tiling wh y hwh0 hy2
    rw [h9, hwh]
    push_cast
    exact ht
  · intro w c p
    exact windowPixels_mem _ _ _ _ _ _ _
  · intro y x
    exact nonzeroPixels_mem img y x
  · intro w c
    constructor
    · intro hgt
      unfold nextCenter
      rw [if_pos hgt]
    · intro hle
      unfold nextCenter
      rw [if_neg hle]

/-- Witness for C4 on the concrete 9x12 frame `img9`. -/
theorem c4_sliding_window_search_witness :
    2 ≤ imgWidth img9 ∧ 0 < imgHeight img9 ∧ 9 ∣ imgHeight img9 ∧
    findLanePixels img9 =
      ((List.range 9).flatMap (fun w =>
        windowPixels (imgHeight img9) (imgHeight img9 / 9) 100
          (nonzeroPixels img9) w
          (centerSeq (imgHeight img9) (imgHeight img9 / 9) 100 50
            (nonzeroPixels img9)
            (argmaxFirst ((histogram img9).take ((histogram img9).length / 2)))
            w)),
       (List.range 9).flatMap (fun w =>
        windowPixels (imgHeight img9) (imgHeight img9 / 9) 100
          (nonzeroPixels img9) w
          (centerSeq (imgHeight img9) (imgHeight img9 / 9) 100 50
            (nonzeroPixels img9)
            (argmaxFirst ((histogram img9).drop ((histogram img9).length / 2)) +
              (histogram img9).length / 2)
            w))) :=
  ⟨by decide, by decide, by decide,
   (c4_sliding_window_search img9 (by decide) (by decide) (by decide)).2.2.2.2.1⟩
